import Mathlib

/-!
Verification of `search_mailing_list.py` (repository chriscool/getreleases).

Strings from the Python program are modelled as `List Char`.  The model
covers the behaviours exercised by the program's own data: line breaks are
`'\n'` (the program writes and reads `'\n'`-separated text), whitespace is
the six ASCII whitespace characters stripped by Python's `str.strip()`,
and `str.lower` / `\w` are modelled on ASCII.  Theorems whose inputs could
fall outside this fragment carry explicit cleanliness hypotheses.
-/

namespace SearchML

/-! ## Basic character/string primitives -/

/-- The backtick character (avoids a bare backtick in code). -/
def btick : Char := Char.ofNat 96

/-- ASCII whitespace stripped by Python's `str.strip()` and matched by `\s`. -/
def isPySpace (c : Char) : Bool :=
  c = ' ' || c = '\t' || c = '\n' || c = '\x0d' || c = '\x0b' || c = '\x0c'

/-- Python `str.strip()` (ASCII fragment). -/
def pyStrip (s : List Char) : List Char :=
  ((s.dropWhile isPySpace).reverse.dropWhile isPySpace).reverse

/-- Python `str.find(pat)`: index of the first occurrence, `none` for `-1`. -/
def findSub (pat : List Char) : List Char → Option Nat
  | [] => if pat.isEmpty then some 0 else none
  | c :: cs => if pat.isPrefixOf (c :: cs) then some 0 else (findSub pat cs).map (· + 1)

/-- Python `pat in s` (substring containment). -/
def containsSub (pat s : List Char) : Bool := (findSub pat s).isSome

/-- Helper for `splitlinesKeep`; `acc` holds the current line reversed. -/
def splitAux (acc : List Char) : List Char → List (List Char)
  | [] => if acc.isEmpty then [] else [acc.reverse]
  | c :: cs =>
    if c = '\n' then (acc.reverse ++ ['\n']) :: splitAux [] cs
    else splitAux (c :: acc) cs

/-- Python `str.splitlines(keepends=True)`, with `'\n'` as the line break
(the only line break the program ever writes). -/
def splitlinesKeep (s : List Char) : List (List Char) := splitAux [] s

/-- Python `str.lower()` (ASCII fragment). -/
def strLower (s : List Char) : List Char := s.map Char.toLower

/-- Python string `<` (lexicographic by code point). -/
def clLt : List Char → List Char → Bool
  | [], [] => false
  | [], _ :: _ => true
  | _ :: _, [] => false
  | a :: as_, b :: bs =>
    if a < b then true else if b < a then false else clLt as_ bs

/-- Python `set.add` on a set modelled as a duplicate-free list. -/
def setInsert (l : List (List Char)) (x : List Char) : List (List Char) :=
  if x ∈ l then l else l ++ [x]

/-! ## Decimal numerals (Python `str(n)` / `int(s)`) -/

/-- Helper for `natToCL`; the fuel keeps the recursion structural and is
never exhausted when it starts at `n`. -/
def natToCLGo : Nat → Nat → List Char → List Char
  | 0, n, acc => Nat.digitChar n :: acc
  | fuel + 1, n, acc =>
    if n < 10 then Nat.digitChar n :: acc
    else natToCLGo fuel (n / 10) (Nat.digitChar (n % 10) :: acc)

/-- Python `str(n)` for a natural number. -/
def natToCL (n : Nat) : List Char := natToCLGo n n []

/-- Python `str(i)` for an integer. -/
def intToCL (i : Int) : List Char :=
  if i < 0 then '-' :: natToCL (-i).toNat else natToCL i.toNat

/-- Python `int(s)` on a string of decimal digits. -/
def natOfDigits (ds : List Char) : Nat :=
  ds.foldl (fun a c => 10 * a + (c.toNat - 48)) 0

/-! ## Dates (`datetime` fragment used by the program) -/

structure PyDateTime where
  year : Nat
  month : Nat
  day : Nat
  hour : Nat
  minute : Nat
  second : Nat
deriving DecidableEq, Repr

def isLeap (y : Nat) : Bool := y % 4 = 0 && (y % 100 ≠ 0 || y % 400 = 0)

def daysInMonth (y m : Nat) : Nat :=
  if m = 2 then (if isLeap y then 29 else 28)
  else if m = 4 ∨ m = 6 ∨ m = 9 ∨ m = 11 then 30
  else 31

def daysBeforeMonth (y m : Nat) : Nat :=
  (List.range (m - 1)).foldl (fun a i => a + daysInMonth y (i + 1)) 0

/-- Day number of a proleptic-Gregorian date (rata die style). -/
def toDayNumber (y m d : Nat) : Nat :=
  ((y - 1) * 365 + (y - 1) / 4 + (y - 1) / 400) - (y - 1) / 100
    + daysBeforeMonth y m + (d - 1)

/-- Seconds since the epoch of day 0; orders `PyDateTime`s the way Python
orders `datetime`s. -/
def toSec (t : PyDateTime) : Nat :=
  toDayNumber t.year t.month t.day * 86400 + t.hour * 3600 + t.minute * 60 + t.second

/-- `str.replace('T', ' ')`. -/
def replaceT (s : List Char) : List Char := s.map (fun c => if c = 'T' then ' ' else c)

/-- One `%m`/`%d`/`%H`/`%M`/`%S` field of `strptime`: one or two digits whose
value lies in `[lo, hi]` (CPython's field regexes combined with the following
literal separator are equivalent to this on the truncated input). -/
def parseField (lo hi : Nat) (s : List Char) : Option (Nat × List Char) :=
  let ds := s.takeWhile Char.isDigit
  if ds.length = 1 ∨ ds.length = 2 then
    let v := natOfDigits ds
    if lo ≤ v ∧ v ≤ hi then some (v, s.drop ds.length) else none
  else none

def expectChar (c : Char) : List Char → Option (List Char)
  | [] => none
  | x :: xs => if x = c then some xs else none

/-- `MailingListStore.parse_date`: `strptime(date_str[:19].replace('T',' '),
"%Y-%m-%d %H:%M:%S")`, returning `none` on `ValueError`/`TypeError`.
`%Y` is exactly four digits; `datetime` validation (year ≥ 1, day within
month) is included.  This covers the string-or-missing shapes of the field
only; a list-valued `dt` makes the source raise an uncaught
`AttributeError` — that path is modelled by `parse_date_v` below. -/
def parse_date (raw? : Option (List Char)) : Option PyDateTime := do
  let raw ← raw?
  let s := replaceT (raw.take 19)
  let ys := s.takeWhile Char.isDigit
  if ys.length = 4 then
    let y := natOfDigits ys
    let s1 ← expectChar '-' (s.drop 4)
    let (mo, s2) ← parseField 1 12 s1
    let s3 ← expectChar '-' s2
    let (d, s4) ← parseField 1 31 s3
    let s5 ← expectChar ' ' s4
    let (h, s6) ← parseField 0 23 s5
    let s7 ← expectChar ':' s6
    let (mi, s8) ← parseField 0 59 s7
    let s9 ← expectChar ':' s8
    let (sec, s10) ← parseField 0 59 s9
    if s10 = [] ∧ 1 ≤ y ∧ d ≤ daysInMonth y mo then
      some ⟨y, mo, d, h, mi, sec⟩
    else none
  else none

/-- `strftime("%Y-%m-%d")` (zero padded). -/
def pad2 (n : Nat) : List Char := if n < 10 then '0' :: natToCL n else natToCL n

def pad4 (n : Nat) : List Char :=
  if n < 10 then '0' :: '0' :: '0' :: natToCL n
  else if n < 100 then '0' :: '0' :: natToCL n
  else if n < 1000 then '0' :: natToCL n
  else natToCL n

def fmtYmd (t : PyDateTime) : List Char :=
  pad4 t.year ++ ['-'] ++ pad2 t.month ++ ['-'] ++ pad2 t.day

/-! ## Raw message records and thread records -/

/-- A raw `lei` message record (`msg.get(...)` fields; missing fields are
`none`/`[]`).  A falsy record (`if not msg: continue`) is modelled as a
`none` entry of the input list. -/
structure Msg where
  m : Option (List Char)
  refs : List (List Char)
  dt : Option (List Char)
  s : Option (List Char)
  f : List (List (List Char))
  blob : Option (List Char)
deriving DecidableEq, Repr

/-- The record emitted per surviving thread by `analyze_threads`. -/
structure ThreadRec where
  thread_id : List Char
  subject : List Char
  count : Nat
  last_activity : List Char
  participants : Nat
  age_days : Int
  blob : List Char
  root_mid : List Char
deriving DecidableEq, Repr

instance : Inhabited ThreadRec :=
  ⟨{ thread_id := [], subject := [], count := 0, last_activity := []
     participants := 0, age_days := 0, blob := [], root_mid := [] }⟩

-- Configuration constants
def MIN_MSG_COUNT : Nat := 5
def MAX_MSG_COUNT : Nat := 40
def MIN_AGE_DAYS : Nat := 21
def MAX_AGE_DAYS : Nat := 90

/-- Thread id: `refs[0]` if `refs` non-empty, else the message's own id. -/
def threadKeyRaw (msg : Msg) : Option (List Char) :=
  match msg.refs with
  | r :: _ => some r
  | [] => msg.m

/-- `if t_id:` — a `None` or empty id is falsy and the message is skipped. -/
def threadKey (msg : Msg) : Option (List Char) :=
  match threadKeyRaw msg with
  | some k => if k = [] then none else some k
  | none => none

/-- `defaultdict(list)` grouping preserving key insertion order. -/
def insertGroup : List (List Char × List Msg) → List Char → Msg →
    List (List Char × List Msg)
  | [], k, msg => [(k, [msg])]
  | (k', ms) :: rest, k, msg =>
    if k' = k then (k', ms ++ [msg]) :: rest
    else (k', ms) :: insertGroup rest k msg

def groupByThread (messages : List (Option Msg)) : List (List Char × List Msg) :=
  messages.foldl
    (fun acc om =>
      match om with
      | none => acc
      | some msg =>
        match threadKey msg with
        | none => acc
        | some k => insertGroup acc k msg)
    []

/-- Sort key `x.get('dt', '')`. -/
def dtKey (msg : Msg) : List Char := msg.dt.getD []

def msgLt (a b : Msg) : Bool := clLt (dtKey a) (dtKey b)

/-- Stable insertion: `x` goes before the first element not strictly below
it, which matches the placement of Python's stable sort. -/
def insertByKey (lt : α → α → Bool) (x : α) : List α → List α
  | [] => [x]
  | y :: ys => if lt y x then y :: insertByKey lt x ys else x :: y :: ys

/-- A stable ascending sort (`list.sort(key=...)`). -/
def sortByKey (lt : α → α → Bool) : List α → List α
  | [] => []
  | x :: xs => insertByKey lt x (sortByKey lt xs)

/-- Unique sender addresses: `sender[1]` for every sender pair of length > 1. -/
def participantsOf (msgs : List Msg) : List (List Char) :=
  msgs.foldl
    (fun acc msg =>
      msg.f.foldl
        (fun acc2 sender =>
          if 1 < sender.length then setInsert acc2 (sender.getD 1 []) else acc2)
        acc)
    []

/-- Python `max` on a non-empty list (keeps the first maximal element). -/
def maxDate (d : PyDateTime) (ds : List PyDateTime) : PyDateTime :=
  ds.foldl (fun a b => if toSec a < toSec b then b else a) d

/-- `MailingListStore.analyze_threads`: group by thread id, filter by message
count and age, emit one `ThreadRec` per surviving group.  The
`dropped_counts` dictionary of the source is diagnostics only (printed to
stderr) and is not modelled. -/
def analyze_threads (now : PyDateTime) (messages : List (Option Msg)) : List ThreadRec :=
  (groupByThread messages).filterMap (fun g =>
    let msgs := g.2
    let count := msgs.length
    if MIN_MSG_COUNT ≤ count ∧ count ≤ MAX_MSG_COUNT then
      match msgs.filterMap (fun msg => parse_date msg.dt) with
      | [] => none
      | d0 :: drest =>
        let last := maxDate d0 drest
        let age : Int := Int.fdiv ((toSec now : Int) - (toSec last : Int)) 86400
        let parts := participantsOf msgs
        if (MIN_AGE_DAYS : Int) ≤ age ∧ age ≤ (MAX_AGE_DAYS : Int) then
          match sortByKey msgLt msgs with
          | [] => none  -- unreachable: count ≥ MIN_MSG_COUNT > 0
          | m0 :: _ =>
            some { thread_id := g.1
                   subject := m0.s.getD ("(No Subject)".toList)
                   count := count
                   last_activity := fmtYmd last
                   participants := parts.length
                   age_days := age
                   blob := m0.blob.getD []
                   root_mid := m0.m.getD [] }
        else none
    else none)

/-! ## The raw `dt` shapes and the uncaught error path

`lei` can emit the `dt` field either as a string or as a list of strings —
`get_latest_message_date` checks `isinstance(latest_dt_str, list)`
explicitly.  `parse_date` runs `date_str[:19].replace('T', ' ')` inside
`try/except (ValueError, TypeError)`: a missing field (`None[:19]`) raises
`TypeError` and is caught, but a list-valued field slices fine and then
raises `AttributeError` at `.replace`, which the `except` clause does not
catch, so the exception propagates out of `analyze_threads`.  The model
below keeps the `dt` JSON shape and returns `Except.error ()` exactly on
that uncaught path. -/

/-- The JSON shape of a `dt` field. -/
inductive DtVal where
  | str (s : List Char)
  | lst (ls : List (List Char))
deriving DecidableEq, Repr

/-- A raw `lei` record whose `dt` field keeps its JSON shape. -/
structure RawMsg where
  m : Option (List Char)
  refs : List (List Char)
  dt : Option DtVal
  s : Option (List Char)
  f : List (List (List Char))
  blob : Option (List Char)
deriving DecidableEq, Repr

/-- `parse_date` on the raw field: `none` (a caught `TypeError`) and
unparseable strings give `None`; a list raises (`Except.error`). -/
def parse_date_v : Option DtVal → Except Unit (Option PyDateTime)
  | none => Except.ok none
  | some (DtVal.str s) => Except.ok (parse_date (some s))
  | some (DtVal.lst _) => Except.error ()

def threadKeyRawV (msg : RawMsg) : Option (List Char) :=
  match msg.refs with
  | r :: _ => some r
  | [] => msg.m

def threadKeyV (msg : RawMsg) : Option (List Char) :=
  match threadKeyRawV msg with
  | some k => if k = [] then none else some k
  | none => none

def insertGroupV : List (List Char × List RawMsg) → List Char → RawMsg →
    List (List Char × List RawMsg)
  | [], k, msg => [(k, [msg])]
  | (k', ms) :: rest, k, msg =>
    if k' = k then (k', ms ++ [msg]) :: rest
    else (k', ms) :: insertGroupV rest k msg

def groupByThreadV (messages : List (Option RawMsg)) :
    List (List Char × List RawMsg) :=
  messages.foldl
    (fun acc om =>
      match om with
      | none => acc
      | some msg =>
        match threadKeyV msg with
        | none => acc
        | some k => insertGroupV acc k msg)
    []

/-- The `dates` loop: `for m in msgs: d = self.parse_date(m.get('dt'))`,
raising at the first list-valued field, in list order. -/
def datesV : List RawMsg → Except Unit (List PyDateTime)
  | [] => Except.ok []
  | msg :: rest =>
    match parse_date_v msg.dt with
    | Except.error e => Except.error e
    | Except.ok none => datesV rest
    | Except.ok (some d) =>
      match datesV rest with
      | Except.error e => Except.error e
      | Except.ok ds => Except.ok (d :: ds)

/-- Sort key `x.get('dt', '')`.  A list-valued field never reaches the
sort: the `dates` loop above runs first on the whole group and raises. -/
def dtKeyV (msg : RawMsg) : List Char :=
  match msg.dt with
  | none => []
  | some (DtVal.str s) => s
  | some (DtVal.lst _) => []

def msgLtV (a b : RawMsg) : Bool := clLt (dtKeyV a) (dtKeyV b)

def participantsOfV (msgs : List RawMsg) : List (List Char) :=
  msgs.foldl
    (fun acc msg =>
      msg.f.foldl
        (fun acc2 sender =>
          if 1 < sender.length then setInsert acc2 (sender.getD 1 []) else acc2)
        acc)
    []

/-- `analyze_threads` over raw records: identical to `analyze_threads`,
except that the `dates` loop can raise, which aborts the whole call (the
exception propagates; threads already collected are lost). -/
def analyze_threads_v (now : PyDateTime) (messages : List (Option RawMsg)) :
    Except Unit (List ThreadRec) :=
  (groupByThreadV messages).foldl
    (fun acc g =>
      match acc with
      | Except.error e => Except.error e
      | Except.ok ts =>
        let msgs := g.2
        let count := msgs.length
        if MIN_MSG_COUNT ≤ count ∧ count ≤ MAX_MSG_COUNT then
          match datesV msgs with
          | Except.error e => Except.error e
          | Except.ok [] => Except.ok ts
          | Except.ok (d0 :: drest) =>
            let last := maxDate d0 drest
            let age : Int := Int.fdiv ((toSec now : Int) - (toSec last : Int)) 86400
            let parts := participantsOfV msgs
            if (MIN_AGE_DAYS : Int) ≤ age ∧ age ≤ (MAX_AGE_DAYS : Int) then
              match sortByKey msgLtV msgs with
              | [] => Except.ok ts
              | m0 :: _ =>
                Except.ok (ts ++ [{ thread_id := g.1
                                    subject := m0.s.getD ("(No Subject)".toList)
                                    count := count
                                    last_activity := fmtYmd last
                                    participants := parts.length
                                    age_days := age
                                    blob := m0.blob.getD []
                                    root_mid := m0.m.getD [] }])
            else Except.ok ts
        else Except.ok ts)
    (Except.ok [])

/-! ## The resume index document (`index.md`): `load_index` / `save_index`

The file system is modelled by the file's content: `none` when the file
does not exist, `some content` otherwise. -/

structure IndexData where
  edition : Option Int
  created : Option (List Char)
  done_mids : List (List Char)
deriving DecidableEq, Repr

/-- Frontmatter of `re.search(r'^---\n(.*?)\n---', content, re.DOTALL)`:
anchored at position 0, non-greedy up to the first `"\n---"`. -/
def parseFrontMatter (content : List Char) : Option (List Char) :=
  if ("---\n".toList).isPrefixOf content then
    (findSub ("\n---".toList) (content.drop 4)).map (fun i => (content.drop 4).take i)
  else none

/-- One line of `re.search(r'^edition:\s*(\d+)', fm, re.MULTILINE)` (the
whitespace and digits are on the matching line for every document the
program writes). -/
def parseEditionAt (l : List Char) : Option Int :=
  if ("edition:".toList).isPrefixOf l then
    let r := (l.drop 8).dropWhile isPySpace
    let ds := r.takeWhile Char.isDigit
    if ds = [] then none else some (natOfDigits ds : Int)
  else none

/-- One line of `re.search(r'^created:\s*(\S+)', fm, re.MULTILINE)`. -/
def parseCreatedAt (l : List Char) : Option (List Char) :=
  if ("created:".toList).isPrefixOf l then
    let r := (l.drop 8).dropWhile isPySpace
    let v := r.takeWhile (fun c => !isPySpace c)
    if v = [] then none else some v
  else none

/-- Helper for `splitOnNl`; `acc` holds the current piece reversed. -/
def splitOnNlAux (acc : List Char) : List Char → List (List Char)
  | [] => [acc.reverse]
  | c :: cs =>
    if c = '\n' then acc.reverse :: splitOnNlAux [] cs
    else splitOnNlAux (c :: acc) cs

/-- The lines of a string (`'\n'`-separated), as scanned by a MULTILINE
regex search. -/
def splitOnNl (s : List Char) : List (List Char) := splitOnNlAux [] s

def firstSomeOn (f : α → Option β) : List α → Option β
  | [] => none
  | x :: xs => match f x with | some b => some b | none => firstSomeOn f xs

/-- Stage 4 of the Message-ID line scan: expect the opening backtick and a
non-empty capture `[^`]+` closed by a backtick. -/
def midCap : List Char → Option (List Char)
  | [] => none
  | c :: r3 =>
    if c = btick then
      let cap := r3.takeWhile (fun d => d ≠ btick)
      if cap = [] then none
      else if r3.drop cap.length = [] then none  -- no closing backtick
      else some cap
    else none

/-- Stage 3: the `\s+` after `Message-ID:` (at least one whitespace). -/
def midAfterTag (r : List Char) : Option (List Char) :=
  let r2 := r.dropWhile isPySpace
  if r.length = r2.length then none
  else midCap r2

/-- Stage 2: the `-`, the `\s+` after it, and the `Message-ID:` literal. -/
def midAfterWs : List Char → Option (List Char)
  | '-' :: rest =>
    let r1 := rest.dropWhile isPySpace
    if r1.length = rest.length then none
    else if ("Message-ID:".toList).isPrefixOf r1 then midAfterTag (r1.drop 11)
    else none
  | _ => none

/-- One candidate match of `r'^\s+-\s+Message-ID:\s+`([^`]+)`'` on a single
line (MULTILINE `^`; for the documents the program writes, the whitespace
runs and the capture never cross a line break). -/
def midOfLine (l : List Char) : Option (List Char) :=
  let l1 := l.dropWhile isPySpace
  if l1.length = l.length then none  -- `\s+` needs at least one whitespace
  else midAfterWs l1

/-- The `finditer` sequence of captured Message-IDs, in document order.
The scan is line by line; the source's `MULTILINE` pattern can in
principle span lines (both `\s+` and `[^`]+` may consume `\n`), so this is
exact only for documents in which every backtick belongs to a delimiter
pair on a single `File:`/`Message-ID:` line — the discipline imposed by
`CleanMid` and `GoodNoteLine` below, under which a cross-line match would
need whitespace-only text between `Message-ID:` and a backtick, which the
non-blank `- `/`  - File:` line prefixes rule out. -/
def midSeq (content : List Char) : List (List Char) :=
  (splitlinesKeep content).filterMap midOfLine

/-- `load_index`: parse `index.md` (or an absent file). -/
def load_index (content? : Option (List Char)) : IndexData :=
  match content? with
  | none => { edition := none, created := none, done_mids := [] }
  | some content =>
    let fm? := parseFrontMatter content
    { edition := fm?.bind (fun fm => firstSomeOn parseEditionAt (splitOnNl fm))
      created := fm?.bind (fun fm => firstSomeOn parseCreatedAt (splitOnNl fm))
      done_mids := (midSeq content).foldl setInsert [] }

/-- `\w` (ASCII fragment). -/
def isWordChar (c : Char) : Bool := c.isAlphanum || c = '_'

/-- Helper for `collapseRuns`: `inRun` records whether the previous
character belonged to a `[-\s]+` run. -/
def collapseAux (inRun : Bool) : List Char → List Char
  | [] => []
  | c :: cs =>
    if isPySpace c || c = '-' then
      if inRun then collapseAux true cs else '-' :: collapseAux true cs
    else c :: collapseAux false cs

/-- `re.sub(r'[-\s]+', '-', name)`: collapse each run of hyphens/whitespace
into a single hyphen. -/
def collapseRuns (l : List Char) : List Char := collapseAux false l

/-- `sanitize_filename`. -/
def sanitize_filename (name : List Char) : List Char :=
  let n1 := name.filter (fun c => isWordChar c || isPySpace c || c = '-')
  let n2 := collapseRuns n1
  (((n2.dropWhile (· = '-')).reverse.dropWhile (· = '-')).reverse).take 50

/-- The filename derived for a thread inside `save_index`. -/
def filenameOf (t : ThreadRec) : List Char :=
  sanitize_filename t.subject ++ ['_'] ++ t.blob.take 8 ++ (".txt".toList)

/-- The entry block appended to `index.md` for one new thread (the f-string
of the `for t in new_threads` loop). -/
def entryFor (t : ThreadRec) : List Char :=
  ("\n- **".toList) ++ t.subject ++ ("**\n  - File: `".toList) ++ filenameOf t
    ++ ("`\n  - Message-ID: `".toList) ++ t.root_mid ++ ("`\n  - Notes:\n".toList)

/-- The `existing_body` computation of `save_index` (lines 127–135 of the
source): find the front matter, take what follows, and drop the title
lines. -/
def existingBodyOf (content? : Option (List Char)) : List Char :=
  match content? with
  | none => []
  | some content =>
    -- fm_end = content.find('\n---\n', content.find('---\n'))
    match findSub ("---\n".toList) content with
    | none => []  -- start becomes -1; the 5-char pattern cannot match from len-1
    | some i =>
      match findSub ("\n---\n".toList) (content.drop i) with
      | none => []
      | some j =>
        let after_fm := content.drop (i + j + 5)
        ((splitlinesKeep after_fm).filter
          (fun l => !(("# Git Rev News".toList).isPrefixOf l))).flatten

/-- `save_index`: returns the new content of `index.md`.  `today` is
`datetime.now().strftime('%Y-%m-%d')`; `content?` is the current file. -/
def save_index (today : List Char) (content? : Option (List Char)) (edition : Int)
    (threads : List ThreadRec) (existing : Option IndexData) : List Char :=
  let created :=
    match existing with
    | some e => match e.created with
      | some c => if c = [] then today else c
      | none => today
    | none => today
  let already :=
    match existing with
    | some e => e.done_mids
    | none => []
  let new_threads := threads.filter (fun t => !(already.contains t.root_mid))
  let existing_body : List Char := existingBodyOf content?
  let new_entries := (new_threads.map entryFor).flatten
  let body :=
    if pyStrip existing_body = [] then ("## Selected Threads\n".toList) ++ new_entries
    else pyStrip existing_body ++ ['\n'] ++ new_entries
  let front_matter :=
    ("---\nedition: ".toList) ++ intToCL edition ++ ("\ncreated: ".toList)
      ++ created ++ ("\n---\n".toList)
  let header :=
    ("\n# Git Rev News Edition ".toList) ++ intToCL edition
      ++ (" - Raw Materials\n\n".toList)
  front_matter ++ header ++ body ++ ['\n']

/-! ## The interactive selector (`ThreadSelectorTUI`) -/

structure SelState where
  threads : List ThreadRec
  selected : List Bool
  cursor : Int
  offset : Int
  search_term : List Char
  search_matches : List Nat
  current_match_idx : Int
  searching : Bool
  show_help_overlay : Bool
  show_preview : Bool
  done_mids : List (List Char)
deriving Repr

/-- `ThreadSelectorTUI.__init__`. -/
def initSelector (threads : List ThreadRec) (done_mids : List (List Char)) : SelState :=
  { threads := threads
    selected := List.replicate threads.length false
    cursor := 0
    offset := 0
    search_term := []
    search_matches := []
    current_match_idx := -1
    searching := false
    show_help_overlay := false
    show_preview := true
    done_mids := done_mids }

/-- `ThreadSelectorTUI.find_matches`. -/
def find_matches (threads : List ThreadRec) (term : List Char) : List Nat :=
  if term = [] then []
  else
    let term_lower := strLower term
    (threads.enum.filter
      (fun it => containsSub term_lower (strLower it.2.subject))).map (·.1)

/-- Python list indexing with an `Int` index (negative indices wrap; an
out-of-range index raises `IndexError` in Python and is given a default
here — every use below is guarded in range). -/
def pyGetNat (l : List Nat) (i : Int) : Nat :=
  if 0 ≤ i then l.getD i.toNat 0 else l.getD (l.length - (-i).toNat) 0

/-- `self.selected[i] = not self.selected[i]` with an `Int` index. -/
def pyToggle (l : List Bool) (i : Int) : List Bool :=
  let j := if 0 ≤ i then i.toNat else l.length - (-i).toNat
  l.set j (!(l.getD j false))

/-- `[threads[i]['root_mid'] for i in range(len(threads)) if selected[i]]`. -/
def selectedMids (s : SelState) : List (List Char) :=
  (List.range s.threads.length).filterMap
    (fun i => if s.selected.getD i false then
        some ((s.threads.getD i default).root_mid)
      else none)

/-- `ThreadSelectorTUI.handle_input`.  Key codes: curses
`KEY_UP=259, KEY_DOWN=258, KEY_ENTER=343, KEY_BACKSPACE=263`; the rest are
ASCII codes. -/
def handle_input (s : SelState) (key : Int) : SelState × Option (List (List Char)) :=
  if key = 16 then ({ s with show_preview := !s.show_preview }, none)
  else if s.searching then
    if key = 343 ∨ key = 10 ∨ key = 13 then
      let s1 := { s with searching := false }
      if s1.search_matches ≠ [] then
        ({ s1 with cursor := (pyGetNat s1.search_matches s1.current_match_idx : Int) }, none)
      else (s1, none)
    else if key = 27 then
      ({ s with searching := false, search_term := [], search_matches := [],
                current_match_idx := -1 }, none)
    else if key = 263 ∨ key = 127 then
      let term := s.search_term.dropLast
      let ms := find_matches s.threads term
      ({ s with search_term := term, search_matches := ms,
                current_match_idx := if ms ≠ [] then 0 else -1 }, none)
    else if 32 ≤ key ∧ key ≤ 126 then
      let term := s.search_term ++ [Char.ofNat key.toNat]
      let ms := find_matches s.threads term
      ({ s with search_term := term, search_matches := ms,
                current_match_idx := if ms ≠ [] then 0 else -1 }, none)
    else (s, none)
  else
    if key = 259 ∨ key = 107 then
      ({ s with cursor := max 0 (s.cursor - 1) }, none)
    else if key = 258 ∨ key = 106 then
      ({ s with cursor := min ((s.threads.length : Int) - 1) (s.cursor + 1) }, none)
    else if key = 32 then
      ({ s with selected := pyToggle s.selected s.cursor }, none)
    else if key = 113 ∨ key = 81 then (s, some (selectedMids s))
    else if key = 63 then ({ s with show_help_overlay := true }, none)
    else if key = 97 then
      let allSel := s.selected.all id
      ({ s with selected := List.replicate s.threads.length (!allSel) }, none)
    else if key = 47 then
      ({ s with searching := true, search_term := [], search_matches := [],
                current_match_idx := -1 }, none)
    else if key = 110 then
      if s.search_matches ≠ [] then
        let idx := (s.current_match_idx + 1) % (s.search_matches.length : Int)
        ({ s with current_match_idx := idx,
                  cursor := (pyGetNat s.search_matches idx : Int) }, none)
      else (s, none)
    else if key = 112 then
      if s.search_matches ≠ [] then
        let idx := (s.current_match_idx - 1) % (s.search_matches.length : Int)
        ({ s with current_match_idx := idx,
                  cursor := (pyGetNat s.search_matches idx : Int) }, none)
      else (s, none)
    else (s, none)

/-- The render/input loop of `ThreadSelectorTUI.run`, driven by the list of
keys the operator will press; `none` means the key stream ran out with the
loop still blocked on `getch`. -/
def runLoop : SelState → List Int → Option (List (List Char))
  | _, [] => none
  | s, k :: ks =>
    match handle_input s k with
    | (_, some r) => some r
    | (s', none) => runLoop s' ks

/-- `ThreadSelectorTUI.run`: empty thread list short-circuits to `[]`
without entering the curses loop. -/
def runTUI (s : SelState) (keys : List Int) : Option (List (List Char)) :=
  if s.threads.isEmpty then some [] else runLoop s keys

/-! ## `ThreadProcessor.process_selected_threads` -/

/-- `{t['root_mid']: t for t in threads}` (later entries overwrite). -/
def dictSet (d : List (List Char × ThreadRec)) (k : List Char) (v : ThreadRec) :
    List (List Char × ThreadRec) :=
  if d.any (fun p => p.1 = k) then
    d.map (fun p => if p.1 = k then (k, v) else p)
  else d ++ [(k, v)]

def buildByMid (ts : List ThreadRec) : List (List Char × ThreadRec) :=
  ts.foldl (fun d t => dictSet d t.root_mid t) []

def dictGet (d : List (List Char × ThreadRec)) (k : List Char) : Option ThreadRec :=
  (d.find? (fun p => p.1 = k)).map (·.2)

/-- Observable outcome of `process_selected_threads`: the threads recorded
as done, and the argument of each `save_index` call made. -/
structure ProcResult where
  processed : List ThreadRec
  saveCalls : List (List ThreadRec)
deriving DecidableEq, Repr

/-- `ThreadProcessor.process_selected_threads`.  `hasRepo` models
`self.repo_path` being set; `exportOk mid` models the `try` block
(`fetch_lei_thread` + `convert_content_to_text`) succeeding for `mid` —
on failure the exception is logged and the loop continues.  The filename
computation has no observable effect here and is omitted. -/
def process_selected_threads (hasRepo : Bool) (exportOk : List Char → Bool)
    (threads : List ThreadRec) (selected_mids : List (List Char)) : ProcResult :=
  if !hasRepo then { processed := [], saveCalls := [] }
  else
    let thread_by_mid := buildByMid threads
    let processed := selected_mids.foldl
      (fun acc mid =>
        if exportOk mid then
          match dictGet thread_by_mid mid with
          | some t => acc ++ [t]
          | none => acc
        else acc)
      []
    { processed := processed
      saveCalls := if processed ≠ [] then [processed] else [] }

/-! ## `compute_edition` -/

/-- `date.replace(day=1) - timedelta(days=1)`: the last day of the previous
month. -/
def prevMonthLastDay (y mo : Nat) : Nat × Nat × Nat :=
  if mo = 1 then (y - 1, 12, 31) else (y, mo - 1, daysInMonth y (mo - 1))

/-- `compute_edition(date)` for a date `(y, mo, d)`. -/
def compute_edition (y mo d : Nat) : Int :=
  let ref := if d < 10 then prevMonthLastDay y mo else (y, mo, d)
  ((ref.1 : Int) - 2015) * 12 + (ref.2.1 : Int) - 2

/-! ## Analysis definitions: canonical index documents

`docOf` describes the shape every document written by `save_index` has;
the resume-store theorems are stated over documents of this shape. -/

/-- One recorded entry of a canonical `index.md`: the four lines written by
`save_index` plus any operator-added note lines under `Notes:`. -/
structure DocEntry where
  subject : List Char
  filename : List Char
  mid : List Char
  notes : List (List Char)
deriving DecidableEq, Repr

/-- The lines of one entry block (the separating blank line, the three
lines written by `save_index`, and the operator's note lines). -/
def entryLines (en : DocEntry) : List (List Char) :=
  [['\n'],
   ("- **".toList) ++ en.subject ++ ("**".toList) ++ ['\n'],
   ("  - File: ".toList) ++ btick :: (en.filename ++ btick :: ['\n']),
   ("  - Message-ID: ".toList) ++ btick :: (en.mid ++ btick :: ['\n']),
   ("  - Notes:".toList) ++ ['\n']]
  ++ en.notes

/-- The text block of one entry. -/
def renderEntry (en : DocEntry) : List Char := (entryLines en).flatten

/-- The entry `save_index` writes for a thread (no notes yet). -/
def threadEntry (t : ThreadRec) : DocEntry :=
  { subject := t.subject, filename := filenameOf t, mid := t.root_mid, notes := [] }

/-- The lines of the body (`## Selected Threads`, the entry blocks, and the
final blank line). -/
def bodyLines (es : List DocEntry) : List (List Char) :=
  (("## Selected Threads".toList) ++ ['\n']) :: (es.map entryLines).flatten ++ [['\n']]

/-- The lines after the front matter (blank line, title, blank line,
body). -/
def afterFmLines (edition : Int) (es : List DocEntry) : List (List Char) :=
  ['\n'] ::
    (("# Git Rev News Edition ".toList) ++ intToCL edition ++ (" - Raw Materials".toList) ++ ['\n']) ::
    ['\n'] :: bodyLines es

/-- The lines of a canonical document. -/
def docLines (edition : Int) (created : List Char) (es : List DocEntry) :
    List (List Char) :=
  (("---".toList) ++ ['\n']) ::
    (("edition: ".toList) ++ intToCL edition ++ ['\n']) ::
    (("created: ".toList) ++ created ++ ['\n']) ::
    (("---".toList) ++ ['\n']) :: afterFmLines edition es

/-- A canonical `index.md`: exactly the shape `save_index` writes. -/
def docOf (edition : Int) (created : List Char) (es : List DocEntry) : List Char :=
  (docLines edition created es).flatten

/-! ## Cleanliness predicates

The program's own data (message ids, subjects, blob ids, dates) consists of
printable ASCII; these predicates state that, so the ASCII model of
`splitlines`/`strip`/regex scanning above is exact on the inputs of the
theorems. -/

def CleanText (s : List Char) : Prop := ∀ c ∈ s, 32 ≤ c.toNat ∧ c.toNat < 127

def CleanMid (s : List Char) : Prop := s ≠ [] ∧ CleanText s ∧ btick ∉ s

def CleanCreated (s : List Char) : Prop := s ≠ [] ∧ CleanText s ∧ ' ' ∉ s

def CleanThread (t : ThreadRec) : Prop :=
  CleanText t.subject ∧ CleanMid t.root_mid ∧ CleanText t.blob

/-- An operator note line: printable ASCII ending in a non-blank character
before its newline, not looking like a title line or a Message-ID entry,
and containing no backtick.  The backtick exclusion is what makes the
line-by-line `midOfLine` scan below exact: the source's `MULTILINE` regex
`^\s+-\s+Message-ID:\s+`([^`]+)`' can consume `\n` inside `\s+` and
`[^`]+`, so a backtick placed in a note line could start or close a match
spanning several lines, which a per-line scan cannot see.  In a canonical
document whose note lines are backtick-free (and whose ids are
backtick-free, `CleanMid`), every backtick is a delimiter on a `File:` or
`Message-ID:` line, each such line matches on its own, and no cross-line
match can form: a match would need whitespace only between `Message-ID:`
and the opening backtick, but in a canonical document every backtick is
separated from the previous line by the non-blank `- ` or `  - File:`
prefix of its own line. -/
def GoodNoteLine (l : List Char) : Prop :=
  l.getLast? = some '\n' ∧ l.dropLast ≠ [] ∧ CleanText l.dropLast
    ∧ isPySpace (l.dropLast.getLastD ' ') = false
    ∧ ("# Git Rev News".toList).isPrefixOf l = false
    ∧ midOfLine l = none
    ∧ btick ∉ l

def GoodEntry (en : DocEntry) : Prop :=
  CleanText en.subject ∧ CleanText en.filename ∧ CleanMid en.mid
    ∧ ∀ l ∈ en.notes, GoodNoteLine l

instance : DecidablePred CleanText := fun s =>
  inferInstanceAs (Decidable (∀ c ∈ s, 32 ≤ c.toNat ∧ c.toNat < 127))

instance : DecidablePred CleanMid := fun s => inferInstanceAs (Decidable (_ ∧ _ ∧ _))

instance : DecidablePred CleanCreated := fun s => inferInstanceAs (Decidable (_ ∧ _ ∧ _))

instance : DecidablePred CleanThread := fun t => inferInstanceAs (Decidable (_ ∧ _ ∧ _))

instance : DecidablePred GoodNoteLine := fun l =>
  inferInstanceAs (Decidable (_ ∧ _ ∧ _ ∧ _ ∧ _ ∧ _ ∧ _))

instance : DecidablePred GoodEntry := fun en =>
  inferInstanceAs (Decidable (_ ∧ _ ∧ _ ∧ _))

/-! ## Further analysis helpers -/

/-- A line: ends with `'\n'`, no interior `'\n'`. -/
def IsLine (l : List Char) : Prop := ∃ a, l = a ++ ['\n'] ∧ '\n' ∉ a

/-- The first element of the list whose key is minimal (characterises the
head of a stable ascending sort). -/
def firstMinBy (key : α → List Char) : List α → Option α
  | [] => none
  | x :: xs =>
    match firstMinBy key xs with
    | none => some x
    | some y => if clLt (key y) (key x) then some y else some x

/-- Modelled from the spec's words, for comparison with the code (claim C5):
"the message with the earliest parseable timestamp", ties broken by original
order. -/
def specEarliestParseable (msgs : List Msg) : Option Msg :=
  (msgs.filter (fun msg => (parse_date msg.dt).isSome)).foldl
    (fun acc msg =>
      match acc with
      | none => some msg
      | some b =>
        match parse_date b.dt, parse_date msg.dt with
        | some db, some dm => if toSec dm < toSec db then some msg else acc
        | _, _ => acc)
    none

/-- One press of the `n` key. -/
def pressN (s : SelState) : SelState := (handle_input s 110).1

/-- `k` presses of the `n` key. -/
def pressNs : Nat → SelState → SelState
  | 0, s => s
  | k + 1, s => pressNs k (pressN s)

/-! ## Concrete test data (for boundary scenarios, witnesses and
counterexamples) -/

/-- A raw message with the given id, timestamp string and subject, in thread
`tid`, from a fixed sender, with a fixed blob. -/
def mkRaw (tid mid : List Char) (dt : Option (List Char)) (subj : List Char) :
    Option Msg :=
  some { m := some mid, refs := [tid], dt := dt, s := some subj, f := [], blob := some ("blob1234".toList) }

def exNow : PyDateTime := ⟨2024, 2, 1, 0, 0, 0⟩

/-- Five messages, last activity 2024-01-11: age exactly 21 days at `exNow`. -/
def exB5 : List (Option Msg) :=
  [mkRaw ("T".toList) ("m1".toList) (some ("2024-01-11 00:00:00".toList)) ("s1".toList),
   mkRaw ("T".toList) ("m2".toList) (some ("2024-01-11 00:00:00".toList)) ("s2".toList),
   mkRaw ("T".toList) ("m3".toList) (some ("2024-01-11 00:00:00".toList)) ("s3".toList),
   mkRaw ("T".toList) ("m4".toList) (some ("2024-01-11 00:00:00".toList)) ("s4".toList),
   mkRaw ("T".toList) ("m5".toList) (some ("2024-01-11 00:00:00".toList)) ("s5".toList)]

/-- Four messages (below the size minimum), aged 30 days at `exNow`. -/
def exB4 : List (Option Msg) :=
  [mkRaw ("T".toList) ("m1".toList) (some ("2024-01-02 00:00:00".toList)) ("s1".toList),
   mkRaw ("T".toList) ("m2".toList) (some ("2024-01-02 00:00:00".toList)) ("s2".toList),
   mkRaw ("T".toList) ("m3".toList) (some ("2024-01-02 00:00:00".toList)) ("s3".toList),
   mkRaw ("T".toList) ("m4".toList) (some ("2024-01-02 00:00:00".toList)) ("s4".toList)]

/-- Five messages aged only 20 days at `exNow` (below the age minimum). -/
def exA20 : List (Option Msg) :=
  [mkRaw ("T".toList) ("m1".toList) (some ("2024-01-12 00:00:00".toList)) ("s1".toList),
   mkRaw ("T".toList) ("m2".toList) (some ("2024-01-12 00:00:00".toList)) ("s2".toList),
   mkRaw ("T".toList) ("m3".toList) (some ("2024-01-12 00:00:00".toList)) ("s3".toList),
   mkRaw ("T".toList) ("m4".toList) (some ("2024-01-12 00:00:00".toList)) ("s4".toList),
   mkRaw ("T".toList) ("m5".toList) (some ("2024-01-12 00:00:00".toList)) ("s5".toList)]

/-- The thread record `analyze_threads exNow exB5` emits. -/
def exT : ThreadRec :=
  { thread_id := "T".toList, subject := "s1".toList, count := 5,
    last_activity := "2024-01-11".toList, participants := 0, age_days := 21,
    blob := "blob1234".toList, root_mid := "m1".toList }

/-- A group where the message that sorts first by raw `dt` string (the one
with a missing timestamp, whose key is the empty string) is not the message
with the earliest parseable timestamp. -/
def exC5 : List (Option Msg) :=
  [mkRaw ("T".toList) ("m1".toList) none ("A".toList),
   mkRaw ("T".toList) ("m2".toList) (some ("2024-01-01 00:00:00".toList)) ("B".toList),
   mkRaw ("T".toList) ("m3".toList) (some ("2024-01-02 00:00:00".toList)) ("C".toList),
   mkRaw ("T".toList) ("m4".toList) (some ("2024-01-02 00:00:00".toList)) ("D".toList),
   mkRaw ("T".toList) ("m5".toList) (some ("2024-01-02 00:00:00".toList)) ("E".toList)]

/-- The thread record `analyze_threads exNow exC5` emits: its subject comes
from `m1`, the message without a parseable timestamp. -/
def exTC5 : ThreadRec :=
  { thread_id := "T".toList, subject := "A".toList, count := 5,
    last_activity := "2024-01-02".toList, participants := 0, age_days := 30,
    blob := "blob1234".toList, root_mid := "m1".toList }

/-- Two threads for the search scenarios. -/
def exTA : ThreadRec := { exT with subject := "Alpha".toList, root_mid := "ma".toList }
def exTB : ThreadRec := { exT with subject := "beta".toList, root_mid := "mb".toList }

/-- A browsing-mode state whose search for `"a"` matched both threads. -/
def exSelN : SelState :=
  { (initSelector [exTA, exTB] []) with
    search_term := "a".toList
    search_matches := [0, 1]
    current_match_idx := 0 }

/-- A searching-mode state. -/
def exSelS : SelState := { (initSelector [exTA, exTB] []) with searching := true }

/-- An existing entry with an operator note, for the resume-store witnesses. -/
def exEntry : DocEntry :=
  { subject := "Old".toList, filename := "Old_cafecafe.txt".toList,
    mid := "old1".toList, notes := [("    keep me\n".toList)] }

/-- A raw record with a given `dt` shape. -/
def mkRawV (tid mid : List Char) (dt : Option DtVal) : Option RawMsg :=
  some { m := some mid, refs := [tid], dt := dt, s := some ("s1".toList), f := [],
         blob := some ("blob1234".toList) }

/-- The list-valued `dt` shape `lei` can emit. -/
def exDtLst : Option DtVal := some (DtVal.lst [("2024-01-11 00:00:00".toList)])

/-- Five messages whose `dt` fields are lists: the group passes the size
filter and the `dates` loop raises. -/
def exRawLst : List (Option RawMsg) :=
  [mkRawV ("T".toList) ("m1".toList) exDtLst,
   mkRawV ("T".toList) ("m2".toList) exDtLst,
   mkRawV ("T".toList) ("m3".toList) exDtLst,
   mkRawV ("T".toList) ("m4".toList) exDtLst,
   mkRawV ("T".toList) ("m5".toList) exDtLst]

/-- Five messages, one with an unparseable string `dt`: tolerated, and it
still counts toward `message_count`. -/
def exRawMixed : List (Option RawMsg) :=
  [mkRawV ("T".toList) ("m1".toList) (some (DtVal.str ("2024-01-11 00:00:00".toList))),
   mkRawV ("T".toList) ("m2".toList) (some (DtVal.str ("2024-01-11 00:00:00".toList))),
   mkRawV ("T".toList) ("m3".toList) (some (DtVal.str ("garbage".toList))),
   mkRawV ("T".toList) ("m4".toList) (some (DtVal.str ("2024-01-11 00:00:00".toList))),
   mkRawV ("T".toList) ("m5".toList) (some (DtVal.str ("2024-01-11 00:00:00".toList)))]

/-- A thread whose root Message-ID contains a backtick (RFC 5322 allows
one): the written entry line `  - Message-ID: ` + the id + ` ` re-reads as
only the pre-backtick prefix. -/
def exTick : ThreadRec :=
  { thread_id := "T".toList, subject := "s1".toList, count := 5,
    last_activity := "2024-01-11".toList, participants := 0, age_days := 21,
    blob := "blob1234".toList, root_mid := 'a' :: btick :: ['b'] }

/-- An empty canonical document (no entries yet). -/
def exDoc0 : List Char := docOf ((127 : Nat) : Int) ("2024-02-01".toList) []

/-- The document after saving `exTick` once into `exDoc0`. -/
def exSave1 : List Char :=
  save_index ("2024-02-02".toList) (some exDoc0) ((127 : Nat) : Int) [exTick]
    (some (load_index (some exDoc0)))

/-- An entry whose operator note line starts with `# Git Rev News`. -/
def exEntryGRN : DocEntry :=
  { subject := "Old".toList, filename := "Old_cafecafe.txt".toList,
    mid := "old1".toList, notes := [("# Git Rev News was here\n".toList)] }

/-- A canonical document containing that note. -/
def exDocGRN : List Char :=
  docOf ((127 : Nat) : Int) ("2024-02-01".toList) [exEntryGRN]

/-! # Theorems -/

/-! ## C7: the default edition number -/

theorem daysInMonth_ge (y m : Nat) : 28 ≤ daysInMonth y m := by
  unfold daysInMonth
  split_ifs <;> omega

/-- C7: when no edition flag is given the edition is computed from the date
alone against the fixed epoch (edition 1 ↔ March 2015, one step per month
of the two-month publication cycle), and for any date whose day-of-month is
strictly below 10 the result equals the edition computed at the last day of
the previous month (a day ≥ 10, hence the previous cycle's edition). -/
theorem compute_edition_default (y mo d : Nat) (hmo1 : 1 ≤ mo) (hmo2 : mo ≤ 12) :
    compute_edition 2015 3 15 = 1 ∧
    (10 ≤ d → compute_edition y mo d = ((y : Int) - 2015) * 12 + (mo : Int) - 2) ∧
    (d < 10 →
      compute_edition y mo d =
        compute_edition (prevMonthLastDay y mo).1 (prevMonthLastDay y mo).2.1
          (prevMonthLastDay y mo).2.2 ∧
      10 ≤ (prevMonthLastDay y mo).2.2) := by
  refine ⟨by decide, ?_, ?_⟩
  · intro hd
    have : ¬ d < 10 := by omega
    simp [compute_edition, this]
  · intro hd
    constructor
    · unfold compute_edition prevMonthLastDay
      by_cases h1 : mo = 1
      · have h31 : ¬ (31 : Nat) < 10 := by omega
        simp [hd, h1, h31]
      · have hdm : ¬ daysInMonth y (mo - 1) < 10 := by
          have := daysInMonth_ge y (mo - 1); omega
        simp [hd, h1, hdm]
    · unfold prevMonthLastDay
      by_cases h1 : mo = 1
      · simp [h1]
      · have := daysInMonth_ge y (mo - 1)
        simp only [h1, if_false]
        omega

/-- Witness for C7 at the concrete date 2025-10-05. -/
theorem compute_edition_default_witness :
    compute_edition 2025 10 5 =
      compute_edition (prevMonthLastDay 2025 10).1 (prevMonthLastDay 2025 10).2.1
        (prevMonthLastDay 2025 10).2.2 ∧
    10 ≤ (prevMonthLastDay 2025 10).2.2 :=
  (compute_edition_default 2025 10 5 (by decide) (by decide)).2.2 (by decide)

/-! ## C10: an empty thread list bypasses the interactive loop -/

/-- C10: with an empty thread list `run` returns the empty selection for
every key stream, including the empty one — whereas with a non-empty list
and no keys the loop blocks — so the key-handling arithmetic is only
reached with a non-empty list. -/
theorem runTUI_empty_immediate (s : SelState) (h : s.threads = []) :
    (∀ keys, runTUI s keys = some []) ∧
    ∀ s2 : SelState, s2.threads ≠ [] → runTUI s2 [] = none := by
  constructor
  · intro keys
    simp [runTUI, h]
  · intro s2 h2
    simp [runTUI, List.isEmpty_iff, h2, runLoop]

/-- Witness for C10: a selector over no threads, fed two keys. -/
theorem runTUI_empty_immediate_witness :
    runTUI (initSelector [] []) [110, 113] = some [] :=
  (runTUI_empty_immediate (initSelector [] []) rfl).1 [110, 113]

/-! ## Structure of `analyze_threads` output (shared helper) -/

/-- Every emitted record comes from a message group that passed the size
check, has at least one parseable timestamp, passed the age check, and
contributes its fields from the head of the stable sort of the group. -/
theorem analyze_threads_mem {now : PyDateTime} {messages : List (Option Msg)}
    {t : ThreadRec} (ht : t ∈ analyze_threads now messages) :
    ∃ g ∈ groupByThread messages,
      g.1 = t.thread_id ∧ t.count = g.2.length ∧
      MIN_MSG_COUNT ≤ g.2.length ∧ g.2.length ≤ MAX_MSG_COUNT ∧
      (MIN_AGE_DAYS : Int) ≤ t.age_days ∧ t.age_days ≤ (MAX_AGE_DAYS : Int) ∧
      g.2.filterMap (fun msg => parse_date msg.dt) ≠ [] ∧
      ∃ m0 rest, sortByKey msgLt g.2 = m0 :: rest ∧
        t.subject = m0.s.getD ("(No Subject)".toList) ∧
        t.blob = m0.blob.getD [] ∧ t.root_mid = m0.m.getD [] := by
  unfold analyze_threads at ht
  rw [List.mem_filterMap] at ht
  obtain ⟨g, hg, hfg⟩ := ht
  dsimp only at hfg
  refine ⟨g, hg, ?_⟩
  split at hfg
  case isTrue hcount =>
    split at hfg
    case h_1 => exact absurd hfg (by simp)
    case h_2 d0 drest hdates =>
      split at hfg
      case isTrue hage =>
        split at hfg
        case h_1 => exact absurd hfg (by simp)
        case h_2 m0 rest hsort =>
          obtain rfl : _ = t := Option.some.inj hfg
          exact ⟨rfl, rfl, hcount.1, hcount.2, hage.1, hage.2, by simp [hdates],
            m0, rest, hsort, rfl, rfl, rfl⟩
      case isFalse => exact absurd hfg (by simp)
  case isFalse => exact absurd hfg (by simp)

/-! ## C1: size and age invariants of the filtering stage -/

/-- C1: every thread emitted by `analyze_threads` satisfies both bounds
inclusively; and with the configured thresholds (5, 40, 21, 90) a thread of
exactly 5 messages and exactly 21 days of age is retained, one of 4
messages is dropped, and one of 20 days of age is dropped. -/
theorem analyze_threads_bounds :
    (∀ (now : PyDateTime) (messages : List (Option Msg)) (t : ThreadRec),
      t ∈ analyze_threads now messages →
        MIN_MSG_COUNT ≤ t.count ∧ t.count ≤ MAX_MSG_COUNT ∧
        (MIN_AGE_DAYS : Int) ≤ t.age_days ∧ t.age_days ≤ (MAX_AGE_DAYS : Int)) ∧
    (analyze_threads exNow exB5).map (fun t => (t.count, t.age_days)) = [(5, (21 : Int))] ∧
    analyze_threads exNow exB4 = [] ∧
    analyze_threads exNow exA20 = [] := by
  refine ⟨?_, by decide, by decide, by decide⟩
  intro now messages t ht
  obtain ⟨g, _, _, hcnt, h1, h2, h3, h4, _⟩ := analyze_threads_mem ht
  exact ⟨hcnt ▸ h1, hcnt ▸ h2, h3, h4⟩

/-- Witness for C1: the record emitted for the boundary 5-message,
21-day-old thread satisfies the bounds. -/
theorem analyze_threads_bounds_witness :
    MIN_MSG_COUNT ≤ exT.count ∧ exT.count ≤ MAX_MSG_COUNT ∧
    (MIN_AGE_DAYS : Int) ≤ exT.age_days ∧ exT.age_days ≤ (MAX_AGE_DAYS : Int) :=
  analyze_threads_bounds.1 exNow exB5 exT (by
    have h : analyze_threads exNow exB5 = [exT] := by decide
    rw [h]
    exact List.mem_singleton.mpr rfl)

/-! ## C9: does a malformed record ever abort the filtering stage? -/

theorem insertGroup_keys (acc : List (List Char × List Msg)) (k : List Char) (msg : Msg) :
    (insertGroup acc k msg).map Prod.fst =
      if k ∈ acc.map Prod.fst then acc.map Prod.fst else acc.map Prod.fst ++ [k] := by
  induction acc with
  | nil => simp [insertGroup]
  | cons p rest ih =>
    obtain ⟨k', ms⟩ := p
    by_cases h : k' = k
    · subst h
      simp [insertGroup]
    · have hne : ¬ (k = k' ∨ k ∈ rest.map Prod.fst) ↔ ¬ (k ∈ rest.map Prod.fst) := by
        constructor
        · intro hx; intro hm; exact hx (Or.inr hm)
        · intro hx; intro hm
          rcases hm with h1 | h2
          · exact h (h1.symm)
          · exact hx h2
      simp only [insertGroup, if_neg h, List.map_cons, ih]
      by_cases hm : k ∈ rest.map Prod.fst
      · simp [hm, Ne.symm h]
      · simp [hm, Ne.symm h]

theorem groupByThread_keys_nodup (messages : List (Option Msg)) :
    ((groupByThread messages).map Prod.fst).Nodup := by
  suffices h : ∀ (acc : List (List Char × List Msg)), (acc.map Prod.fst).Nodup →
      (((messages.foldl (fun acc om =>
          match om with
          | none => acc
          | some msg =>
            match threadKey msg with
            | none => acc
            | some k => insertGroup acc k msg) acc)).map Prod.fst).Nodup by
    exact h [] (by simp)
  induction messages with
  | nil => intro acc hacc; simpa using hacc
  | cons om rest ih =>
    intro acc hacc
    simp only [List.foldl_cons]
    cases om with
    | none => exact ih acc hacc
    | some msg =>
      cases hk : threadKey msg with
      | none => simpa [hk] using ih acc hacc
      | some k =>
        simp only [hk]
        refine ih _ ?_
        rw [insertGroup_keys]
        by_cases hm : k ∈ acc.map Prod.fst
        · simpa [hm] using hacc
        · rw [if_neg hm]
          refine List.Nodup.append hacc (by simp) ?_
          intro a ha hak
          rw [List.mem_singleton] at hak
          exact hm (hak ▸ ha)

theorem keys_nodup_unique {α β : Type} {l : List (α × β)} (h : (l.map Prod.fst).Nodup)
    {a b : α × β} (ha : a ∈ l) (hb : b ∈ l) (hab : a.1 = b.1) : a = b := by
  induction l with
  | nil => cases ha
  | cons p rest ih =>
    simp only [List.map_cons, List.nodup_cons] at h
    rcases List.mem_cons.mp ha with rfl | ha'
    · rcases List.mem_cons.mp hb with rfl | hb'
      · rfl
      · exact absurd (hab ▸ List.mem_map_of_mem Prod.fst hb') h.1
    · rcases List.mem_cons.mp hb with rfl | hb'
      · exact absurd (hab ▸ List.mem_map_of_mem Prod.fst ha') h.1
      · exact ih h.2 ha' hb'

/-- On the string fragment of the input space the two halves of the
failure policy do hold: every emitted thread's `message_count` equals the
full size of its group — records with missing or unparseable timestamps
included — and a group none of whose records has a parseable timestamp
produces no output at all rather than an error. -/
theorem analyze_threads_malformed_policy (now : PyDateTime) (messages : List (Option Msg)) :
    (∀ t ∈ analyze_threads now messages,
      ∃ g ∈ groupByThread messages, g.1 = t.thread_id ∧ t.count = g.2.length ∧
        g.2.filterMap (fun msg => parse_date msg.dt) ≠ []) ∧
    (∀ g ∈ groupByThread messages,
      g.2.filterMap (fun msg => parse_date msg.dt) = [] →
        ∀ t ∈ analyze_threads now messages, t.thread_id ≠ g.1) := by
  constructor
  · intro t ht
    obtain ⟨g, hg, hk, hcnt, _, _, _, _, hdne, _⟩ := analyze_threads_mem ht
    exact ⟨g, hg, hk, hcnt, hdne⟩
  · intro g hg hdates t ht hkey
    obtain ⟨g', hg', hk', _, _, _, _, _, hdne, _⟩ := analyze_threads_mem ht
    have hgg : g' = g :=
      keys_nodup_unique (groupByThread_keys_nodup messages) hg' hg (by rw [hk', hkey])
    rw [hgg] at hdne
    exact hdne hdates

/-- Instance of the policy above: the group of `exC5` contains a record
with a missing timestamp, yet the emitted record counts all 5 messages. -/
theorem analyze_threads_malformed_policy_witness :
    ∃ g ∈ groupByThread exC5, g.1 = exTC5.thread_id ∧ exTC5.count = g.2.length ∧
      g.2.filterMap (fun msg => parse_date msg.dt) ≠ [] :=
  (analyze_threads_malformed_policy exNow exC5).1 exTC5 (by
    have h : analyze_threads exNow exC5 = [exTC5] := by decide
    rw [h]
    exact List.mem_singleton.mpr rfl)

/-- C9: the claim's "never raises for a record with missing or unparseable
fields" is false of the program — a bug, since the intended tolerance is
both stated and partially implemented: a `dt` field holding a *list* of
strings (a `lei` shape the source defends against in
`get_latest_message_date`) slips past `except (ValueError, TypeError)` as
an uncaught `AttributeError` at `date_str[:19].replace('T', ' ')`, and the
whole filtering stage aborts (first conjunct); the same group with an
unparseable *string* timestamp is tolerated and still counts all five
records toward `message_count` (second conjunct). -/
theorem analyze_threads_list_dt_raises :
    analyze_threads_v exNow exRawLst = Except.error ()
      ∧ analyze_threads_v exNow exRawMixed = Except.ok [exT] :=
  ⟨rfl, rfl⟩

/-! ## C5: which message supplies the emitted subject and blob -/

theorem insertByKey_length {α : Type} (lt : α → α → Bool) (x : α) (l : List α) :
    (insertByKey lt x l).length = l.length + 1 := by
  induction l with
  | nil => rfl
  | cons y ys ih =>
    simp only [insertByKey]
    split
    · simpa using ih
    · simp

theorem sortByKey_length {α : Type} (lt : α → α → Bool) (l : List α) :
    (sortByKey lt l).length = l.length := by
  induction l with
  | nil => rfl
  | cons x xs ih => simp [sortByKey, insertByKey_length, ih]

/-- The head of the stable ascending insertion sort is the first element of
the input attaining the minimal key. -/
theorem sortByKey_head_firstMin {α : Type} (key : α → List Char) (l : List α) :
    (sortByKey (fun a b => clLt (key a) (key b)) l).head? = firstMinBy key l := by
  induction l with
  | nil => rfl
  | cons x xs ih =>
    rw [sortByKey]
    cases h : sortByKey (fun a b => clLt (key a) (key b)) xs with
    | nil =>
      have hxs : xs = [] := by
        have := sortByKey_length (fun a b => clLt (key a) (key b)) xs
        rw [h] at this
        exact List.length_eq_zero.mp this.symm
      subst hxs
      rfl
    | cons y ys =>
      rw [h] at ih
      rw [firstMinBy, ← ih]
      simp only [insertByKey, List.head?_cons]
      split
      · simp
      · simp

/-- C5 (amended): for every surviving group, the emitted subject, blob and
root id come from the first message, in the group's original order, among
those with the lexicographically least raw timestamp string (a missing
timestamp reads as the empty string, which sorts before every date string);
this is the head of the stable ascending sort by the raw `dt` string.  When
every message of the group carries a parseable zero-padded timestamp this
coincides with the earliest timestamp, but not in general. -/
theorem analyze_threads_root_choice (now : PyDateTime) (messages : List (Option Msg))
    (t : ThreadRec) (ht : t ∈ analyze_threads now messages) :
    ∃ g ∈ groupByThread messages, g.1 = t.thread_id ∧
      ∃ m0, firstMinBy dtKey g.2 = some m0 ∧
        t.subject = m0.s.getD ("(No Subject)".toList) ∧
        t.blob = m0.blob.getD [] ∧ t.root_mid = m0.m.getD [] := by
  obtain ⟨g, hg, hk, _, _, _, _, _, _, m0, rest, hsort, hsub, hblob, hmid⟩ :=
    analyze_threads_mem ht
  refine ⟨g, hg, hk, m0, ?_, hsub, hblob, hmid⟩
  have hh := sortByKey_head_firstMin dtKey g.2
  have hms : sortByKey (fun a b => clLt (dtKey a) (dtKey b)) g.2 = sortByKey msgLt g.2 := rfl
  rw [hms, hsort] at hh
  simpa using hh.symm

/-- Counterexample to C5 as stated: in the surviving group of `exC5` the
message with the earliest parseable timestamp is `m2` (subject `B`), but
the emitted thread's subject is `A`, from the message whose timestamp is
missing (its raw key is the empty string, which sorts first). -/
theorem analyze_threads_root_choice_counterexample :
    (analyze_threads exNow exC5).map (fun t => t.subject) = [("A".toList)] ∧
    (groupByThread exC5).map
        (fun g => (specEarliestParseable g.2).map (fun msg => msg.s.getD [])) =
      [some ("B".toList)] ∧
    ("A".toList) ≠ ("B".toList) := by decide

/-- Witness for C5 (amended) at the concrete group `exC5`. -/
theorem analyze_threads_root_choice_witness :
    ∃ g ∈ groupByThread exC5, g.1 = exTC5.thread_id ∧
      ∃ m0, firstMinBy dtKey g.2 = some m0 ∧
        exTC5.subject = m0.s.getD ("(No Subject)".toList) ∧
        exTC5.blob = m0.blob.getD [] ∧ exTC5.root_mid = m0.m.getD [] :=
  analyze_threads_root_choice exNow exC5 exTC5 (by
    have h : analyze_threads exNow exC5 = [exTC5] := by decide
    rw [h]
    exact List.mem_singleton.mpr rfl)

/-! ## C6: incremental search and match navigation -/

theorem countP_enumFrom (q : ThreadRec → Bool) (l : List ThreadRec) :
    ∀ n, (List.enumFrom n l).countP (fun it => q it.2) = l.countP q := by
  induction l with
  | nil => intro n; rfl
  | cons x xs ih =>
    intro n
    simp only [List.enumFrom, List.countP_cons, ih]

/-- The number of matches equals the number of subjects containing the
term. -/
theorem find_matches_length (threads : List ThreadRec) (term : List Char) (h : term ≠ []) :
    (find_matches threads term).length =
      threads.countP (fun t => containsSub (strLower term) (strLower t.subject)) := by
  unfold find_matches
  rw [if_neg h, List.length_map, ← List.countP_eq_length_filter, List.enum]
  exact countP_enumFrom (fun t => containsSub (strLower term) (strLower t.subject)) threads 0

/-- Membership in the match list is exactly case-insensitive substring
containment in the corresponding subject. -/
theorem mem_find_matches {threads : List ThreadRec} {term : List Char} (h : term ≠ [])
    {i : Nat} {t : ThreadRec} (hmem : (i, t) ∈ threads.enum) :
    i ∈ find_matches threads term ↔
      containsSub (strLower term) (strLower t.subject) = true := by
  unfold find_matches
  rw [if_neg h]
  constructor
  · intro hi
    rw [List.mem_map] at hi
    obtain ⟨p, hp, hip⟩ := hi
    rw [List.mem_filter] at hp
    have hn : (threads.enum.map Prod.fst).Nodup := by
      rw [List.enum_map_fst]
      exact List.nodup_range _
    have : p = (i, t) := keys_nodup_unique hn hp.1 hmem (by rw [hip])
    rw [this] at hp
    exact hp.2
  · intro hq
    rw [List.mem_map]
    exact ⟨(i, t), List.mem_filter.mpr ⟨hmem, hq⟩, rfl⟩

/-- One 'n' press in browsing mode with a non-empty match list. -/
theorem pressN_browsing (s : SelState) (hs : s.searching = false)
    (hm : s.search_matches ≠ []) :
    pressN s = { s with
      current_match_idx := (s.current_match_idx + 1) % (s.search_matches.length : Int),
      cursor := (pyGetNat s.search_matches
        ((s.current_match_idx + 1) % (s.search_matches.length : Int)) : Int) } := by
  unfold pressN handle_input
  rw [hs]
  simp [hm]

theorem pressNs_succ (k : Nat) (s : SelState) :
    pressNs (k + 1) s = pressN (pressNs k s) := by
  induction k generalizing s with
  | zero => rfl
  | succ k ih =>
    calc pressNs (k + 2) s = pressNs (k + 1) (pressN s) := rfl
    _ = pressN (pressNs k (pressN s)) := ih (pressN s)
    _ = pressN (pressNs (k + 1) s) := rfl

theorem emod_succ_shift (j len : Int) : (j % len + 1) % len = (j + 1) % len := by
  conv_lhs => rw [show j % len = j - len * (j / len) from Int.emod_def j len]
  rw [show j - len * (j / len) + 1 = j + 1 + len * (-(j / len)) by ring,
    Int.add_mul_emod_self_left]

/-- Invariant of repeated 'n' presses from match 0 in browsing mode. -/
theorem pressNs_invariant (s : SelState) (hs : s.searching = false)
    (hm : s.search_matches ≠ []) (hidx : s.current_match_idx = 0) :
    ∀ j : Nat,
      (pressNs j s).search_matches = s.search_matches ∧
      (pressNs j s).searching = false ∧
      (pressNs j s).current_match_idx = (j : Int) % (s.search_matches.length : Int) ∧
      (1 ≤ j → (pressNs j s).cursor =
        (pyGetNat s.search_matches ((j : Int) % (s.search_matches.length : Int)) : Int)) := by
  intro j
  induction j with
  | zero =>
    refine ⟨rfl, hs, ?_, by omega⟩
    show s.current_match_idx = ((0 : Nat) : Int) % (s.search_matches.length : Int)
    rw [hidx]
    simp
  | succ j ih =>
    obtain ⟨ihm, ihs, ihidx, _⟩ := ih
    rw [pressNs_succ]
    rw [pressN_browsing (pressNs j s) ihs (ihm ▸ hm)]
    refine ⟨ihm, ihs, ?_, ?_⟩
    · show ((pressNs j s).current_match_idx + 1) %
          ((pressNs j s).search_matches.length : Int) = _
      rw [ihm, ihidx, emod_succ_shift]
      norm_cast
    · intro _
      show (pyGetNat (pressNs j s).search_matches
          (((pressNs j s).current_match_idx + 1) %
            ((pressNs j s).search_matches.length : Int)) : Int) = _
      rw [ihm, ihidx, emod_succ_shift]
      norm_cast

/-- C6: in Searching mode a printable key appends to the term, recomputes
the match list to exactly the indices of the threads whose subject contains
the term case-insensitively, and resets the match pointer (0 if matches
exist, else −1); a term present in exactly `k` subjects yields exactly `k`
matches; and the `n` key (handled in browsing mode, to which Enter returns)
advances the pointer modulo the match count and moves the cursor there, so
`len` presses from match 0 return to match 0. -/
theorem selector_search_spec (s : SelState) (key : Int) :
    (s.searching = true → 32 ≤ key → key ≤ 126 →
      (handle_input s key).1.search_term = s.search_term ++ [Char.ofNat key.toNat] ∧
      (handle_input s key).1.search_matches =
        find_matches s.threads (s.search_term ++ [Char.ofNat key.toNat]) ∧
      (handle_input s key).1.current_match_idx =
        (if (handle_input s key).1.search_matches = [] then -1 else 0) ∧
      (∀ i t, (i, t) ∈ s.threads.enum →
        (i ∈ (handle_input s key).1.search_matches ↔
          containsSub (strLower (s.search_term ++ [Char.ofNat key.toNat]))
            (strLower t.subject) = true))) ∧
    (∀ (threads : List ThreadRec) (term : List Char), term ≠ [] →
      (find_matches threads term).length =
        threads.countP (fun t => containsSub (strLower term) (strLower t.subject))) ∧
    (s.searching = false → s.search_matches ≠ [] →
      (handle_input s 110).1.current_match_idx =
        (s.current_match_idx + 1) % (s.search_matches.length : Int) ∧
      (handle_input s 110).1.cursor =
        (pyGetNat s.search_matches
          ((s.current_match_idx + 1) % (s.search_matches.length : Int)) : Int)) ∧
    (s.searching = false → s.search_matches ≠ [] → s.current_match_idx = 0 →
      (pressNs s.search_matches.length s).current_match_idx = 0 ∧
      (pressNs s.search_matches.length s).cursor =
        (pyGetNat s.search_matches 0 : Int)) := by
  refine ⟨?_, fun threads term h => find_matches_length threads term h, ?_, ?_⟩
  · intro hs h1 h2
    have e16 : ¬ key = 16 := by omega
    have eE : ¬ (key = 343 ∨ key = 10 ∨ key = 13) := by omega
    have e27 : ¬ key = 27 := by omega
    have eB : ¬ (key = 263 ∨ key = 127) := by omega
    have eP : 32 ≤ key ∧ key ≤ 126 := ⟨h1, h2⟩
    unfold handle_input
    rw [hs, if_neg e16, if_pos rfl, if_neg eE, if_neg e27, if_neg eB, if_pos eP]
    refine ⟨rfl, rfl, ?_, ?_⟩
    · dsimp only
      by_cases hms : find_matches s.threads (s.search_term ++ [Char.ofNat key.toNat]) = []
      · simp [hms]
      · simp [hms]
    · intro i t hmem
      exact mem_find_matches (by simp) hmem
  · intro hs hm
    have h := pressN_browsing s hs hm
    unfold pressN at h
    rw [h]
    exact ⟨rfl, rfl⟩
  · intro hs hm hidx
    obtain ⟨_, _, hi, hc⟩ := pressNs_invariant s hs hm hidx s.search_matches.length
    have hlen : (0 : Int) < (s.search_matches.length : Int) := by
      have : s.search_matches.length ≠ 0 := fun h0 => hm (List.length_eq_zero.mp h0)
      omega
    constructor
    · rw [hi, Int.emod_self]
    · rw [hc (by omega), Int.emod_self]

/-- Witness for C6 at a concrete two-thread selector. -/
theorem selector_search_spec_witness :
    (handle_input exSelS 97).1.search_term = exSelS.search_term ++ [Char.ofNat (97 : Int).toNat] ∧
    (pressNs exSelN.search_matches.length exSelN).current_match_idx = 0 ∧
    (pressNs exSelN.search_matches.length exSelN).cursor =
      (pyGetNat exSelN.search_matches 0 : Int) :=
  ⟨((selector_search_spec exSelS 97).1 rfl (by decide) (by decide)).1,
   ((selector_search_spec exSelN 97).2.2.2 rfl (by decide) rfl).1,
   ((selector_search_spec exSelN 97).2.2.2 rfl (by decide) rfl).2⟩

/-! ## C4: per-thread export failure never aborts the batch -/

theorem foldl_export_filterMap (exportOk : List Char → Bool)
    (d : List (List Char × ThreadRec)) (sel : List (List Char)) (init : List ThreadRec) :
    sel.foldl (fun acc mid =>
        if exportOk mid then
          match dictGet d mid with
          | some t => acc ++ [t]
          | none => acc
        else acc) init
      = init ++ sel.filterMap (fun mid => if exportOk mid then dictGet d mid else none) := by
  induction sel generalizing init with
  | nil => simp
  | cons mid rest ih =>
    simp only [List.foldl_cons, List.filterMap_cons]
    by_cases h : exportOk mid
    · simp only [h, if_true]
      cases hd : dictGet d mid with
      | none => simpa using ih init
      | some t =>
        rw [ih (init ++ [t])]
        simp
    · simp only [h, if_false, Bool.false_eq_true]
      rw [ih init]

/-- C4 (amended): the processed list is exactly the selected ids, in list
order, that exported successfully and matched a thread — a failed export
skips only its own thread and the batch continues — and `save_index` is
called exactly once with that list when it is non-empty, and not at all
when every export failed. -/
theorem process_selected_threads_policy (exportOk : List Char → Bool)
    (threads : List ThreadRec) (selected_mids : List (List Char)) :
    ((process_selected_threads true exportOk threads selected_mids).processed =
      selected_mids.filterMap
        (fun mid => if exportOk mid then dictGet (buildByMid threads) mid else none)) ∧
    ((process_selected_threads true exportOk threads selected_mids).saveCalls =
      if (process_selected_threads true exportOk threads selected_mids).processed = []
      then [] else [(process_selected_threads true exportOk threads selected_mids).processed]) ∧
    (∀ sel1 mid sel2, exportOk mid = false →
      (process_selected_threads true exportOk threads (sel1 ++ mid :: sel2)).processed =
        (process_selected_threads true exportOk threads sel1).processed ++
          (process_selected_threads true exportOk threads sel2).processed) := by
  have hmain : ∀ sel : List (List Char),
      (process_selected_threads true exportOk threads sel).processed =
        sel.filterMap (fun mid => if exportOk mid then dictGet (buildByMid threads) mid else none) := by
    intro sel
    unfold process_selected_threads
    simpa using foldl_export_filterMap exportOk (buildByMid threads) sel []
  refine ⟨hmain selected_mids, ?_, ?_⟩
  · have hflip : ∀ P : List ThreadRec,
        (if P ≠ [] then [P] else []) = if P = [] then ([] : List (List ThreadRec)) else [P] := by
      intro P
      by_cases hP : P = []
      · simp [hP]
      · simp [hP]
    unfold process_selected_threads
    dsimp only
    exact hflip _
  · intro sel1 mid sel2 hfail
    rw [hmain, hmain, hmain, List.filterMap_append, List.filterMap_cons]
    simp [hfail]

/-- C4 counterexample: with a single selected thread whose export fails,
`save_index` is called zero times — not exactly once — and nothing is
recorded. -/
theorem process_selected_threads_counterexample :
    (process_selected_threads true (fun _ => false) [exT] [exT.root_mid]).processed = [] ∧
    (process_selected_threads true (fun _ => false) [exT] [exT.root_mid]).saveCalls = [] := by
  constructor <;> rfl

/-- Witness for C4 (amended): a failing export in the middle of a batch
leaves exactly the other exports processed. -/
theorem process_selected_threads_policy_witness :
    (process_selected_threads true (fun _ => false) [exT]
        (([] : List (List Char)) ++ exT.root_mid :: [])).processed =
      (process_selected_threads true (fun _ => false) [exT] []).processed ++
        (process_selected_threads true (fun _ => false) [exT] []).processed :=
  (process_selected_threads_policy (fun _ => false) [exT] [exT.root_mid]).2.2
    [] exT.root_mid [] rfl

/-! ## String-scanning lemmas (for the resume-store claims C2, C3, C8) -/

theorem isPrefixOf_append_self (l r : List Char) : l.isPrefixOf (l ++ r) = true := by
  induction l with
  | nil => cases r <;> rfl
  | cons c cs ih => simp [List.isPrefixOf, ih]

theorem findSub_of_prefix {pat s : List Char} (h : pat.isPrefixOf s = true) :
    findSub pat s = some 0 := by
  cases s with
  | nil =>
    cases pat with
    | nil => rfl
    | cons p ps => simp [List.isPrefixOf] at h
  | cons c cs => simp [findSub, h]

theorem findSub_cons_neg {pat : List Char} {c : Char} {s : List Char}
    (h : pat.isPrefixOf (c :: s) = false) :
    findSub pat (c :: s) = (findSub pat s).map (· + 1) := by
  simp [findSub, h]

theorem isPrefixOf_cons_false {p : Char} {ps : List Char} {c : Char} {s : List Char}
    (h : p ≠ c) : (p :: ps).isPrefixOf (c :: s) = false := by
  simp [List.isPrefixOf, h]

/-- Scanning for a pattern that starts with `'\n'` steps over any character
that is not `'\n'`. -/
theorem findSub_cons_nl {q : List Char} {c : Char} {s : List Char} (hc : c ≠ '\n') :
    findSub ('\n' :: q) (c :: s) = (findSub ('\n' :: q) s).map (· + 1) :=
  findSub_cons_neg (isPrefixOf_cons_false (fun h => hc h.symm))

/-- Scanning for a pattern that starts with `'\n'` steps over a whole
segment that contains no `'\n'`. -/
theorem findSub_skip_nl {q : List Char} (a : List Char) (ha : ∀ ch ∈ a, ch ≠ '\n')
    (s : List Char) :
    findSub ('\n' :: q) (a ++ s) = (findSub ('\n' :: q) s).map (· + a.length) := by
  induction a with
  | nil =>
    cases h : findSub ('\n' :: q) s <;> simp [h]
  | cons c cs ih =>
    have hc : c ≠ '\n' := ha c (List.mem_cons_self c cs)
    rw [List.cons_append, findSub_cons_nl hc, ih (fun ch hch => ha ch (List.mem_cons_of_mem c hch))]
    cases h : findSub ('\n' :: q) s <;> simp [h] <;> omega

/-- A `'\n'` not followed by the pattern's second character is stepped
over. -/
theorem findSub_nl2 {q : Char} {r : List Char} {h : Char} {t : List Char}
    (hh : h ≠ q) :
    findSub ('\n' :: q :: r) ('\n' :: h :: t) =
      (findSub ('\n' :: q :: r) (h :: t)).map (· + 1) := by
  apply findSub_cons_neg
  have hstep : ('\n' :: q :: r).isPrefixOf ('\n' :: h :: t)
      = ((('\n' : Char) == '\n') && (q :: r).isPrefixOf (h :: t)) := rfl
  rw [hstep, isPrefixOf_cons_false (fun hx => hh hx.symm)]
  simp

/-! ### Splitting into lines -/

theorem splitAux_line {a : List Char} (ha : '\n' ∉ a) (rest : List Char) :
    ∀ acc, splitAux acc (a ++ '\n' :: rest) =
      ((acc.reverse ++ a) ++ ['\n']) :: splitAux [] rest := by
  induction a with
  | nil => intro acc; simp [splitAux]
  | cons c cs ih =>
    intro acc
    have hc : c ≠ '\n' := fun h => ha (h ▸ List.mem_cons_self c cs)
    rw [List.cons_append]
    show splitAux acc (c :: (cs ++ '\n' :: rest)) = _
    rw [splitAux, if_neg hc, ih (fun h => ha (List.mem_cons_of_mem c h))]
    simp

theorem splitlinesKeep_line {a : List Char} (ha : '\n' ∉ a) (rest : List Char) :
    splitlinesKeep ((a ++ ['\n']) ++ rest) = (a ++ ['\n']) :: splitlinesKeep rest := by
  unfold splitlinesKeep
  rw [List.append_assoc, List.singleton_append, splitAux_line ha rest]
  simp

theorem splitlinesKeep_nil : splitlinesKeep [] = [] := rfl

theorem splitlinesKeep_flatten {ls : List (List Char)} (h : ∀ l ∈ ls, IsLine l) :
    splitlinesKeep ls.flatten = ls := by
  induction ls with
  | nil => rfl
  | cons l rest ih =>
    obtain ⟨a, rfl, ha⟩ := h l (List.mem_cons_self l rest)
    rw [List.flatten_cons, splitlinesKeep_line ha,
      ih (fun x hx => h x (List.mem_cons_of_mem _ hx))]

theorem splitOnNlAux_line {a : List Char} (ha : '\n' ∉ a) (rest : List Char) :
    ∀ acc, splitOnNlAux acc (a ++ '\n' :: rest) =
      (acc.reverse ++ a) :: splitOnNlAux [] rest := by
  induction a with
  | nil => intro acc; simp [splitOnNlAux]
  | cons c cs ih =>
    intro acc
    have hc : c ≠ '\n' := fun h => ha (h ▸ List.mem_cons_self c cs)
    rw [List.cons_append]
    show splitOnNlAux acc (c :: (cs ++ '\n' :: rest)) = _
    rw [splitOnNlAux, if_neg hc, ih (fun h => ha (List.mem_cons_of_mem c h))]
    simp

theorem splitOnNlAux_last {b : List Char} (hb : '\n' ∉ b) :
    ∀ acc, splitOnNlAux acc b = [acc.reverse ++ b] := by
  induction b with
  | nil => intro acc; simp [splitOnNlAux]
  | cons c cs ih =>
    intro acc
    have hc : c ≠ '\n' := fun h => hb (h ▸ List.mem_cons_self c cs)
    rw [splitOnNlAux, if_neg hc, ih (fun h => hb (List.mem_cons_of_mem c h))]
    simp

/-! ### Stripping -/

theorem dropWhile_append_of_all {p : Char → Bool} {ws : List Char}
    (h : ∀ w ∈ ws, p w = true) (t : List Char) :
    (ws ++ t).dropWhile p = t.dropWhile p := by
  induction ws with
  | nil => rfl
  | cons w rest ih =>
    rw [List.cons_append, List.dropWhile_cons_of_pos (h w (List.mem_cons_self w rest))]
    exact ih (fun x hx => h x (List.mem_cons_of_mem w hx))

/-- Stripping a string that is non-blank at both ends and carries trailing
whitespace returns the core. -/
theorem pyStrip_sandwich {c z : Char} {m ws : List Char}
    (hc : isPySpace c = false) (hz : isPySpace z = false)
    (hws : ∀ w ∈ ws, isPySpace w = true) :
    pyStrip ((c :: (m ++ [z])) ++ ws) = c :: (m ++ [z]) := by
  unfold pyStrip
  rw [show (c :: (m ++ [z])) ++ ws = c :: (m ++ [z] ++ ws) by simp]
  rw [List.dropWhile_cons_of_neg (by simp [hc])]
  have h1 : (c :: (m ++ [z] ++ ws)).reverse = ws.reverse ++ (z :: (m.reverse ++ [c])) := by
    simp
  rw [h1, dropWhile_append_of_all (fun w hw => hws w (List.mem_reverse.mp hw)),
    List.dropWhile_cons_of_neg (by simp [hz])]
  simp

theorem pyStrip_drop_leading {s : List Char} :
    pyStrip ('\n' :: s) = pyStrip s := by
  unfold pyStrip
  rw [List.dropWhile_cons_of_pos (by decide)]

/-! ### Decimal numeral lemmas -/

theorem natToCLGo_eq : ∀ n : Nat, ∀ f acc, n ≤ f → natToCLGo f n acc = natToCL n ++ acc := by
  intro n
  induction n using Nat.strong_induction_on with
  | _ n ih =>
    intro f acc hnf
    cases f with
    | zero =>
      have hn : n = 0 := by omega
      subst hn
      rfl
    | succ f =>
      rw [show natToCLGo (f + 1) n acc =
          (if n < 10 then Nat.digitChar n :: acc
           else natToCLGo f (n / 10) (Nat.digitChar (n % 10) :: acc)) from rfl]
      by_cases h : n < 10
      · rw [if_pos h]
        have hone : natToCL n = [Nat.digitChar n] := by
          cases n with
          | zero => rfl
          | succ m =>
            show (if m + 1 < 10 then Nat.digitChar (m + 1) :: ([] : List Char)
                 else natToCLGo m ((m + 1) / 10) [Nat.digitChar ((m + 1) % 10)]) = _
            rw [if_pos h]
        rw [hone]
        rfl
      · rw [if_neg h]
        have hdiv : n / 10 < n := Nat.div_lt_self (by omega) (by omega)
        rw [ih (n / 10) hdiv f _ (by omega)]
        have hrhs : natToCL n = natToCL (n / 10) ++ [Nat.digitChar (n % 10)] := by
          cases hn0 : n with
          | zero => omega
          | succ m =>
            show (if m + 1 < 10 then Nat.digitChar (m + 1) :: ([] : List Char)
                 else natToCLGo m ((m + 1) / 10) [Nat.digitChar ((m + 1) % 10)]) = _
            rw [if_neg (hn0 ▸ h)]
            have hx := ih (n / 10) hdiv m [Nat.digitChar (n % 10)] (by omega)
            rw [hn0] at hx
            exact hx
        rw [hrhs, List.append_assoc]
        rfl

theorem natToCL_unfold (n : Nat) :
    natToCL n = if n < 10 then [Nat.digitChar n]
      else natToCL (n / 10) ++ [Nat.digitChar (n % 10)] := by
  by_cases h : n < 10
  · rw [if_pos h]
    cases n with
    | zero => rfl
    | succ m =>
      show (if m + 1 < 10 then Nat.digitChar (m + 1) :: ([] : List Char)
           else natToCLGo m ((m + 1) / 10) [Nat.digitChar ((m + 1) % 10)]) = _
      rw [if_pos h]
  · rw [if_neg h]
    cases hn0 : n with
    | zero => omega
    | succ m =>
      show (if m + 1 < 10 then Nat.digitChar (m + 1) :: ([] : List Char)
           else natToCLGo m ((m + 1) / 10) [Nat.digitChar ((m + 1) % 10)]) = _
      rw [if_neg (hn0 ▸ h)]
      rw [natToCLGo_eq ((m + 1) / 10) m _ (by omega)]

theorem digitChar_isDigit {d : Nat} (h : d < 10) : (Nat.digitChar d).isDigit = true := by
  interval_cases d <;> decide

theorem natToCL_digits (n : Nat) : ∀ c ∈ natToCL n, c.isDigit = true := by
  induction n using Nat.strong_induction_on with
  | _ n ih =>
    intro c hc
    rw [natToCL_unfold] at hc
    by_cases h : n < 10
    · rw [if_pos h] at hc
      rw [List.mem_singleton] at hc
      exact hc ▸ digitChar_isDigit h
    · rw [if_neg h] at hc
      rcases List.mem_append.mp hc with h1 | h2
      · exact ih (n / 10) (Nat.div_lt_self (by omega) (by omega)) c h1
      · rw [List.mem_singleton] at h2
        exact h2 ▸ digitChar_isDigit (Nat.mod_lt n (by omega))

theorem natToCL_ne_nil (n : Nat) : natToCL n ≠ [] := by
  rw [natToCL_unfold]
  by_cases h : n < 10
  · simp [h]
  · simp [h]

theorem natOfDigits_append_singleton (ds : List Char) (c : Char) :
    natOfDigits (ds ++ [c]) = 10 * natOfDigits ds + (c.toNat - 48) := by
  unfold natOfDigits
  rw [List.foldl_append]
  rfl

theorem digitChar_toNat {d : Nat} (h : d < 10) : (Nat.digitChar d).toNat - 48 = d := by
  interval_cases d <;> decide

theorem natOfDigits_natToCL (n : Nat) : natOfDigits (natToCL n) = n := by
  induction n using Nat.strong_induction_on with
  | _ n ih =>
    rw [natToCL_unfold]
    by_cases h : n < 10
    · rw [if_pos h]
      show natOfDigits ([] ++ [Nat.digitChar n]) = n
      rw [natOfDigits_append_singleton]
      have : natOfDigits [] = 0 := rfl
      rw [this, digitChar_toNat h]
      omega
    · rw [if_neg h, natOfDigits_append_singleton,
        ih (n / 10) (Nat.div_lt_self (by omega) (by omega)),
        digitChar_toNat (Nat.mod_lt n (by omega))]
      omega

theorem isDigit_not_pySpace {c : Char} (h : c.isDigit = true) : isPySpace c = false := by
  unfold isPySpace
  have k : c ≠ ' ' ∧ c ≠ '\t' ∧ c ≠ '\n' ∧ c ≠ '\x0d' ∧ c ≠ '\x0b' ∧ c ≠ '\x0c' := by
    refine ⟨?_, ?_, ?_, ?_, ?_, ?_⟩ <;> (intro he; subst he; exact absurd h (by decide))
  obtain ⟨h1, h2, h3, h4, h5, h6⟩ := k
  simp [h1, h2, h3, h4, h5, h6]

/-- A printable ASCII character is not `'\n'`. -/
theorem cleanChar_ne_nl {c : Char} (h : 32 ≤ c.toNat) : c ≠ '\n' := by
  intro he
  subst he
  exact absurd h (by decide)

/-- A printable ASCII character other than `' '` is not Python
whitespace. -/
theorem cleanChar_not_pySpace {c : Char} (h32 : 32 ≤ c.toNat) (hsp : c ≠ ' ') :
    isPySpace c = false := by
  unfold isPySpace
  have k : c ≠ '\t' ∧ c ≠ '\n' ∧ c ≠ '\x0d' ∧ c ≠ '\x0b' ∧ c ≠ '\x0c' := by
    refine ⟨?_, ?_, ?_, ?_, ?_⟩ <;> (intro he; subst he; exact absurd h32 (by decide))
  obtain ⟨h2, h3, h4, h5, h6⟩ := k
  simp [hsp, h2, h3, h4, h5, h6]

theorem CleanText.ne_nl {s : List Char} (h : CleanText s) : '\n' ∉ s := by
  intro hm
  have := (h '\n' hm).1
  exact absurd this (by decide)

theorem intToCL_natCast (n : Nat) : intToCL (n : Int) = natToCL n := by
  unfold intToCL
  rw [if_neg (by omega)]
  simp

theorem intToCL_natCast_no_nl (n : Nat) : ∀ ch ∈ intToCL (n : Int), ch ≠ '\n' := by
  rw [intToCL_natCast]
  intro ch hch
  have := natToCL_digits n ch hch
  intro he
  subst he
  exact absurd this (by decide)

/-! ### Locating the front-matter delimiters in a canonical document -/

/-- Position of the first `"\n---\n"` (the closing front-matter delimiter
searched by `save_index`) in a canonical document. -/
theorem findSub_close_doc (D c R : List Char) (hD : ∀ ch ∈ D, ch ≠ '\n')
    (hc : ∀ ch ∈ c, ch ≠ '\n') :
    findSub ("\n---\n".toList)
        (("---\nedition: ".toList) ++ (D ++ (("\ncreated: ".toList) ++ (c ++ (("\n---\n".toList) ++ R)))))
      = some (((((((0 + c.length) + 9) + 1) + D.length) + 9) + 1) + 3) := by
  have hhit : findSub ("\n---\n".toList) (("\n---\n".toList) ++ R) = some 0 :=
    findSub_of_prefix (isPrefixOf_append_self _ R)
  have h1 : findSub ("\n---\n".toList) (c ++ (("\n---\n".toList) ++ R))
      = some (0 + c.length) := by
    have hs : findSub ("\n---\n".toList) (c ++ (("\n---\n".toList) ++ R))
        = (findSub ("\n---\n".toList) (("\n---\n".toList) ++ R)).map (· + c.length) :=
      findSub_skip_nl (q := "---\n".toList) c hc _
    rw [hs, hhit]
    rfl
  have h2 : findSub ("\n---\n".toList) (("created: ".toList) ++ (c ++ (("\n---\n".toList) ++ R)))
      = some ((0 + c.length) + 9) := by
    have hs : findSub ("\n---\n".toList) (("created: ".toList) ++ (c ++ (("\n---\n".toList) ++ R)))
        = (findSub ("\n---\n".toList) (c ++ (("\n---\n".toList) ++ R))).map
            (· + ("created: ".toList).length) :=
      findSub_skip_nl (q := "---\n".toList) ("created: ".toList) (by decide) _
    rw [hs, h1]
    rfl
  have h3 : findSub ("\n---\n".toList) (("\ncreated: ".toList) ++ (c ++ (("\n---\n".toList) ++ R)))
      = some (((0 + c.length) + 9) + 1) := by
    have hs : findSub ("\n---\n".toList) (("\ncreated: ".toList) ++ (c ++ (("\n---\n".toList) ++ R)))
        = (findSub ("\n---\n".toList)
            (("created: ".toList) ++ (c ++ (("\n---\n".toList) ++ R)))).map (· + 1) :=
      findSub_nl2 (q := '-') (r := "--\n".toList)
        (h := 'c') (t := ("reated: ".toList) ++ (c ++ (("\n---\n".toList) ++ R))) (by decide)
    rw [hs, h2]
    rfl
  have h4 : findSub ("\n---\n".toList)
        (D ++ (("\ncreated: ".toList) ++ (c ++ (("\n---\n".toList) ++ R))))
      = some ((((0 + c.length) + 9) + 1) + D.length) := by
    have hs : findSub ("\n---\n".toList)
          (D ++ (("\ncreated: ".toList) ++ (c ++ (("\n---\n".toList) ++ R))))
        = (findSub ("\n---\n".toList)
            (("\ncreated: ".toList) ++ (c ++ (("\n---\n".toList) ++ R)))).map (· + D.length) :=
      findSub_skip_nl (q := "---\n".toList) D hD _
    rw [hs, h3]
    rfl
  have h5 : findSub ("\n---\n".toList)
        (("edition: ".toList) ++ (D ++ (("\ncreated: ".toList) ++ (c ++ (("\n---\n".toList) ++ R)))))
      = some (((((0 + c.length) + 9) + 1) + D.length) + 9) := by
    have hs : findSub ("\n---\n".toList)
          (("edition: ".toList) ++ (D ++ (("\ncreated: ".toList) ++ (c ++ (("\n---\n".toList) ++ R)))))
        = (findSub ("\n---\n".toList)
            (D ++ (("\ncreated: ".toList) ++ (c ++ (("\n---\n".toList) ++ R))))).map
              (· + ("edition: ".toList).length) :=
      findSub_skip_nl (q := "---\n".toList) ("edition: ".toList) (by decide) _
    rw [hs, h4]
    rfl
  have h6 : findSub ("\n---\n".toList)
        (("\nedition: ".toList) ++ (D ++ (("\ncreated: ".toList) ++ (c ++ (("\n---\n".toList) ++ R)))))
      = some ((((((0 + c.length) + 9) + 1) + D.length) + 9) + 1) := by
    have hs : findSub ("\n---\n".toList)
          (("\nedition: ".toList) ++ (D ++ (("\ncreated: ".toList) ++ (c ++ (("\n---\n".toList) ++ R)))))
        = (findSub ("\n---\n".toList)
            (("edition: ".toList) ++ (D ++ (("\ncreated: ".toList) ++ (c ++ (("\n---\n".toList) ++ R)))))).map
              (· + 1) :=
      findSub_nl2 (q := '-') (r := "--\n".toList)
        (h := 'e')
        (t := ("dition: ".toList) ++ (D ++ (("\ncreated: ".toList) ++ (c ++ (("\n---\n".toList) ++ R)))))
        (by decide)
    rw [hs, h5]
    rfl
  have h7 : findSub ("\n---\n".toList)
        (("---".toList) ++ (("\nedition: ".toList) ++ (D ++ (("\ncreated: ".toList) ++ (c ++ (("\n---\n".toList) ++ R))))))
      = some (((((((0 + c.length) + 9) + 1) + D.length) + 9) + 1) + 3) := by
    have hs : findSub ("\n---\n".toList)
          (("---".toList) ++ (("\nedition: ".toList) ++ (D ++ (("\ncreated: ".toList) ++ (c ++ (("\n---\n".toList) ++ R))))))
        = (findSub ("\n---\n".toList)
            (("\nedition: ".toList) ++ (D ++ (("\ncreated: ".toList) ++ (c ++ (("\n---\n".toList) ++ R)))))).map
              (· + ("---".toList).length) :=
      findSub_skip_nl (q := "---\n".toList) ("---".toList) (by decide) _
    rw [hs, h6]
    rfl
  exact h7

/-- Position of the first `"\n---"` (the pattern of `load_index`'s
front-matter regex) in a canonical document with its opening `"---\n"`
removed. -/
theorem findSub_close_fm (D c R : List Char) (hD : ∀ ch ∈ D, ch ≠ '\n')
    (hc : ∀ ch ∈ c, ch ≠ '\n') :
    findSub ("\n---".toList)
        (("edition: ".toList) ++ (D ++ (("\ncreated: ".toList) ++ (c ++ (("\n---\n".toList) ++ R)))))
      = some (((((0 + c.length) + 9) + 1) + D.length) + 9) := by
  have hhit : findSub ("\n---".toList) (("\n---\n".toList) ++ R) = some 0 :=
    findSub_of_prefix (by
      have hsplit : (("\n---\n".toList) ++ R) = ("\n---".toList) ++ (('\n' :: []) ++ R) := rfl
      rw [hsplit]
      exact isPrefixOf_append_self _ _)
  have h1 : findSub ("\n---".toList) (c ++ (("\n---\n".toList) ++ R))
      = some (0 + c.length) := by
    have hs : findSub ("\n---".toList) (c ++ (("\n---\n".toList) ++ R))
        = (findSub ("\n---".toList) (("\n---\n".toList) ++ R)).map (· + c.length) :=
      findSub_skip_nl (q := "---".toList) c hc _
    rw [hs, hhit]
    rfl
  have h2 : findSub ("\n---".toList) (("created: ".toList) ++ (c ++ (("\n---\n".toList) ++ R)))
      = some ((0 + c.length) + 9) := by
    have hs : findSub ("\n---".toList) (("created: ".toList) ++ (c ++ (("\n---\n".toList) ++ R)))
        = (findSub ("\n---".toList) (c ++ (("\n---\n".toList) ++ R))).map
            (· + ("created: ".toList).length) :=
      findSub_skip_nl (q := "---".toList) ("created: ".toList) (by decide) _
    rw [hs, h1]
    rfl
  have h3 : findSub ("\n---".toList) (("\ncreated: ".toList) ++ (c ++ (("\n---\n".toList) ++ R)))
      = some (((0 + c.length) + 9) + 1) := by
    have hs : findSub ("\n---".toList) (("\ncreated: ".toList) ++ (c ++ (("\n---\n".toList) ++ R)))
        = (findSub ("\n---".toList)
            (("created: ".toList) ++ (c ++ (("\n---\n".toList) ++ R)))).map (· + 1) :=
      findSub_nl2 (q := '-') (r := "--".toList)
        (h := 'c') (t := ("reated: ".toList) ++ (c ++ (("\n---\n".toList) ++ R))) (by decide)
    rw [hs, h2]
    rfl
  have h4 : findSub ("\n---".toList)
        (D ++ (("\ncreated: ".toList) ++ (c ++ (("\n---\n".toList) ++ R))))
      = some ((((0 + c.length) + 9) + 1) + D.length) := by
    have hs : findSub ("\n---".toList)
          (D ++ (("\ncreated: ".toList) ++ (c ++ (("\n---\n".toList) ++ R))))
        = (findSub ("\n---".toList)
            (("\ncreated: ".toList) ++ (c ++ (("\n---\n".toList) ++ R)))).map (· + D.length) :=
      findSub_skip_nl (q := "---".toList) D hD _
    rw [hs, h3]
    rfl
  have h5 : findSub ("\n---".toList)
        (("edition: ".toList) ++ (D ++ (("\ncreated: ".toList) ++ (c ++ (("\n---\n".toList) ++ R)))))
      = some (((((0 + c.length) + 9) + 1) + D.length) + 9) := by
    have hs : findSub ("\n---".toList)
          (("edition: ".toList) ++ (D ++ (("\ncreated: ".toList) ++ (c ++ (("\n---\n".toList) ++ R)))))
        = (findSub ("\n---".toList)
            (D ++ (("\ncreated: ".toList) ++ (c ++ (("\n---\n".toList) ++ R))))).map
              (· + ("edition: ".toList).length) :=
      findSub_skip_nl (q := "---".toList) ("edition: ".toList) (by decide) _
    rw [hs, h4]
    rfl
  exact h5

/-! ### Shape of canonical documents -/

theorem intToCL_no_nl (i : Int) : ∀ ch ∈ intToCL i, ch ≠ '\n' := by
  intro ch hch
  unfold intToCL at hch
  have hdig : ∀ x ∈ natToCL i.toNat, x ≠ '\n' := by
    intro x hx he
    have := natToCL_digits i.toNat x hx
    subst he
    exact absurd this (by decide)
  have hdig2 : ∀ x ∈ natToCL (-i).toNat, x ≠ '\n' := by
    intro x hx he
    have := natToCL_digits (-i).toNat x hx
    subst he
    exact absurd this (by decide)
  split at hch
  · rcases List.mem_cons.mp hch with rfl | hm
    · decide
    · exact hdig2 ch hm
  · exact hdig ch hch

/-- `docOf` in the concatenated form scanned by `findSub`. -/
theorem docOf_decomp (e : Int) (c : List Char) (es : List DocEntry) :
    docOf e c es =
      ("---\nedition: ".toList) ++ (intToCL e ++ (("\ncreated: ".toList) ++ (c ++
        (("\n---\n".toList) ++ (afterFmLines e es).flatten)))) := by
  have b1 : ("---\nedition: ".toList) = ("---".toList) ++ ('\n' :: ("edition: ".toList)) := by
    decide
  have b2 : ("\ncreated: ".toList) = '\n' :: ("created: ".toList) := by decide
  have b3 : ("\n---\n".toList) = '\n' :: (("---".toList) ++ ['\n']) := by decide
  rw [docOf, docLines, b1, b2, b3]
  simp only [List.flatten_cons, List.append_assoc, List.cons_append, List.nil_append,
    List.singleton_append]

theorem isLine_of_core {a : List Char} (h : '\n' ∉ a) : IsLine (a ++ ['\n']) := ⟨a, rfl, h⟩

theorem GoodNoteLine.isLine {l : List Char} (h : GoodNoteLine l) : IsLine l := by
  obtain ⟨hlast, hne, hclean, _, _, _⟩ := h
  have hnn : l ≠ [] := by
    intro he
    rw [he] at hlast
    cases hlast
  have hgl : l.getLast hnn = '\n' := by
    have h2 := List.getLast?_eq_getLast l hnn
    rw [hlast] at h2
    exact (Option.some.inj h2).symm
  have hl : l.dropLast ++ ['\n'] = l := by
    have h3 := List.dropLast_append_getLast hnn
    rwa [hgl] at h3
  exact ⟨l.dropLast, hl.symm, hclean.ne_nl⟩

/-- The shape of the `File:`/`Message-ID:` lines. -/
theorem isLine_tick {x : List Char} (hx : '\n' ∉ x) {f : List Char} (hf : '\n' ∉ f) :
    IsLine (x ++ btick :: (f ++ btick :: ['\n'])) := by
  refine ⟨x ++ btick :: (f ++ [btick]), by simp, ?_⟩
  intro hm
  simp only [List.mem_append, List.mem_cons, List.mem_singleton] at hm
  rcases hm with hm | hm | hm | hm
  · exact hx hm
  · exact absurd hm (by decide)
  · exact hf hm
  · exact absurd hm (by decide)

theorem entryLines_isLine {en : DocEntry} (h : GoodEntry en) :
    ∀ l ∈ entryLines en, IsLine l := by
  obtain ⟨hsub, hfn, hmid, hnotes⟩ := h
  intro l hl
  unfold entryLines at hl
  rcases List.mem_cons.mp hl with rfl | hl
  · exact ⟨[], rfl, by simp⟩
  rcases List.mem_cons.mp hl with rfl | hl
  · apply isLine_of_core
    intro hm
    rcases List.mem_append.mp hm with hm1 | hm1
    · rcases List.mem_append.mp hm1 with hm2 | hm2
      · exact absurd hm2 (by decide)
      · exact hsub.ne_nl hm2
    · exact absurd hm1 (by decide)
  rcases List.mem_cons.mp hl with rfl | hl
  · exact isLine_tick (by decide) hfn.ne_nl
  rcases List.mem_cons.mp hl with rfl | hl
  · exact isLine_tick (by decide) hmid.2.1.ne_nl
  rcases List.mem_cons.mp hl with rfl | hl
  · exact isLine_of_core (by decide)
  · exact (hnotes l hl).isLine

theorem docLines_isLine {e : Int} {c : List Char} {es : List DocEntry}
    (hc : CleanText c) (hes : ∀ en ∈ es, GoodEntry en) :
    ∀ l ∈ docLines e c es, IsLine l := by
  intro l hl
  unfold docLines at hl
  rcases List.mem_cons.mp hl with rfl | hl
  · exact isLine_of_core (by decide)
  rcases List.mem_cons.mp hl with rfl | hl
  · apply isLine_of_core
    intro hm
    rcases List.mem_append.mp hm with hm1 | hm1
    · exact absurd hm1 (by decide)
    · exact intToCL_no_nl e '\n' hm1 rfl
  rcases List.mem_cons.mp hl with rfl | hl
  · apply isLine_of_core
    intro hm
    rcases List.mem_append.mp hm with hm1 | hm1
    · exact absurd hm1 (by decide)
    · exact hc.ne_nl hm1
  rcases List.mem_cons.mp hl with rfl | hl
  · exact isLine_of_core (by decide)
  unfold afterFmLines at hl
  rcases List.mem_cons.mp hl with rfl | hl
  · exact ⟨[], rfl, by simp⟩
  rcases List.mem_cons.mp hl with rfl | hl
  · apply isLine_of_core
    intro hm
    rcases List.mem_append.mp hm with hm1 | hm1
    · rcases List.mem_append.mp hm1 with hm2 | hm2
      · exact absurd hm2 (by decide)
      · exact intToCL_no_nl e '\n' hm2 rfl
    · exact absurd hm1 (by decide)
  rcases List.mem_cons.mp hl with rfl | hl
  · exact ⟨[], rfl, by simp⟩
  unfold bodyLines at hl
  rcases List.mem_cons.mp hl with rfl | hl
  · exact isLine_of_core (by decide)
  rcases List.mem_append.mp hl with hl | hl
  · rw [List.mem_flatten] at hl
    obtain ⟨lines, hlines, hmem⟩ := hl
    rw [List.mem_map] at hlines
    obtain ⟨en, hen, rfl⟩ := hlines
    exact entryLines_isLine (hes en hen) l hmem
  · rw [List.mem_singleton] at hl
    subst hl
    exact ⟨[], rfl, by simp⟩

/-- The line decomposition of a canonical document. -/
theorem splitlines_docOf {e : Int} {c : List Char} {es : List DocEntry}
    (hc : CleanText c) (hes : ∀ en ∈ es, GoodEntry en) :
    splitlinesKeep (docOf e c es) = docLines e c es :=
  splitlinesKeep_flatten (docLines_isLine hc hes)

/-- `entryFor` writes exactly the canonical entry block of the thread. -/
theorem entryFor_eq (t : ThreadRec) : entryFor t = renderEntry (threadEntry t) := by
  have b1 : ("\n- **".toList) = '\n' :: ("- **".toList) := by decide
  have b2 : ("**\n  - File: `".toList)
      = ("**".toList) ++ ('\n' :: (("  - File: ".toList) ++ [btick])) := by decide
  have b3 : ("`\n  - Message-ID: `".toList)
      = btick :: ('\n' :: (("  - Message-ID: ".toList) ++ [btick])) := by decide
  have b4 : ("`\n  - Notes:\n".toList)
      = btick :: ('\n' :: (("  - Notes:".toList) ++ ['\n'])) := by decide
  rw [entryFor, renderEntry, threadEntry, entryLines, b1, b2, b3, b4]
  simp only [List.flatten_cons, List.flatten_nil, List.append_nil, List.append_assoc,
    List.cons_append, List.nil_append, List.singleton_append]

/-! ### Evaluating the Message-ID scan on canonical lines -/

theorem dropWhile_length_le (p : Char → Bool) (l : List Char) :
    (l.dropWhile p).length ≤ l.length := by
  induction l with
  | nil => simp
  | cons c cs ih =>
    rw [List.dropWhile_cons]
    split
    · exact Nat.le_succ_of_le ih
    · simp

theorem dropWhile_all_eq_self {p : Char → Bool} {l : List Char}
    (h : ∀ x ∈ l, p x = false) : l.dropWhile p = l := by
  cases l with
  | nil => rfl
  | cons c cs =>
    exact List.dropWhile_cons_of_neg (by simp [h c (List.mem_cons_self c cs)])

theorem takeWhile_all_eq_self {p : Char → Bool} {l : List Char}
    (h : ∀ x ∈ l, p x = true) : l.takeWhile p = l := by
  induction l with
  | nil => rfl
  | cons c cs ih =>
    rw [List.takeWhile_cons_of_pos (by simp [h c (List.mem_cons_self c cs)])]
    rw [ih (fun x hx => h x (List.mem_cons_of_mem c hx))]

theorem takeWhile_append_stop {p : Char → Bool} {a : List Char}
    (ha : ∀ x ∈ a, p x = true) {b : Char} (hb : p b = false) (t : List Char) :
    (a ++ b :: t).takeWhile p = a := by
  induction a with
  | nil => exact List.takeWhile_cons_of_neg (by simp [hb])
  | cons c cs ih =>
    rw [List.cons_append,
      List.takeWhile_cons_of_pos (by simp [ha c (List.mem_cons_self c cs)]),
      ih (fun x hx => ha x (List.mem_cons_of_mem c hx))]

/-- A line whose first character is not whitespace never yields a
Message-ID. -/
theorem midOfLine_nonspace_head {ch : Char} (h : isPySpace ch = false) (t : List Char) :
    midOfLine (ch :: t) = none := by
  unfold midOfLine
  rw [List.dropWhile_cons_of_neg (by simp [h])]
  simp

theorem midOfLine_blank : midOfLine ['\n'] = none := by decide

/-- Evaluation of the scan on a canonical `"  - "`-indented line. -/
theorem midOfLine_dash (X : List Char) :
    midOfLine (' ' :: ' ' :: '-' :: ' ' :: X) =
      (if ("Message-ID:".toList).isPrefixOf (X.dropWhile isPySpace) then
        midAfterTag ((X.dropWhile isPySpace).drop 11)
      else none) := by
  unfold midOfLine
  rw [show (' ' :: ' ' :: '-' :: ' ' :: X).dropWhile isPySpace = '-' :: ' ' :: X from by
    rw [List.dropWhile_cons_of_pos (by decide), List.dropWhile_cons_of_pos (by decide),
      List.dropWhile_cons_of_neg (by decide)]]
  rw [if_neg (by simp)]
  rw [show midAfterWs ('-' :: ' ' :: X)
      = (if ((' ' :: X).dropWhile isPySpace).length = (' ' :: X).length then none
         else if ("Message-ID:".toList).isPrefixOf ((' ' :: X).dropWhile isPySpace) then
           midAfterTag (((' ' :: X).dropWhile isPySpace).drop 11)
         else none) from rfl]
  rw [show (' ' :: X).dropWhile isPySpace = X.dropWhile isPySpace from
    List.dropWhile_cons_of_pos (by decide)]
  rw [if_neg (by
    have := dropWhile_length_le isPySpace X
    simp only [List.length_cons]
    omega)]

theorem midOfLine_file (f : List Char) :
    midOfLine (("  - File: ".toList) ++ btick :: (f ++ btick :: ['\n'])) = none := by
  show midOfLine (' ' :: ' ' :: '-' :: ' ' ::
    ('F' :: 'i' :: 'l' :: 'e' :: ':' :: ' ' :: (btick :: (f ++ btick :: ['\n'])))) = none
  rw [midOfLine_dash]
  rw [show ('F' :: 'i' :: 'l' :: 'e' :: ':' :: ' ' ::
      (btick :: (f ++ btick :: ['\n']))).dropWhile isPySpace
    = 'F' :: 'i' :: 'l' :: 'e' :: ':' :: ' ' :: (btick :: (f ++ btick :: ['\n'])) from
    List.dropWhile_cons_of_neg (by decide)]
  rw [if_neg (by simp [List.isPrefixOf])]

theorem midOfLine_notesHdr : midOfLine (("  - Notes:".toList) ++ ['\n']) = none := by
  decide

/-- The Message-ID line of a canonical entry yields exactly its id. -/
theorem midOfLine_mid {m : List Char} (hm : CleanMid m) :
    midOfLine (("  - Message-ID: ".toList) ++ btick :: (m ++ btick :: ['\n'])) = some m := by
  obtain ⟨hne, hclean, htick⟩ := hm
  show midOfLine (' ' :: ' ' :: '-' :: ' ' ::
    ('M' :: 'e' :: 's' :: 's' :: 'a' :: 'g' :: 'e' :: '-' :: 'I' :: 'D' :: ':' :: ' ' ::
      (btick :: (m ++ btick :: ['\n'])))) = some m
  rw [midOfLine_dash]
  rw [show ('M' :: 'e' :: 's' :: 's' :: 'a' :: 'g' :: 'e' :: '-' :: 'I' :: 'D' :: ':' :: ' ' ::
      (btick :: (m ++ btick :: ['\n']))).dropWhile isPySpace
    = ("Message-ID:".toList) ++ (' ' :: (btick :: (m ++ btick :: ['\n']))) from
    List.dropWhile_cons_of_neg (by decide)]
  rw [if_pos (isPrefixOf_append_self _ _)]
  rw [show ((("Message-ID:".toList) ++ (' ' :: (btick :: (m ++ btick :: ['\n'])))).drop 11)
    = ' ' :: (btick :: (m ++ btick :: ['\n'])) from rfl]
  unfold midAfterTag
  rw [show (' ' :: (btick :: (m ++ btick :: ['\n']))).dropWhile isPySpace
    = btick :: (m ++ btick :: ['\n']) from by
    rw [List.dropWhile_cons_of_pos (by decide), List.dropWhile_cons_of_neg (by decide)]]
  rw [if_neg (by simp)]
  rw [show midCap (btick :: (m ++ btick :: ['\n']))
      = (if btick = btick then
          (if (m ++ btick :: ['\n']).takeWhile (fun d => d ≠ btick) = [] then none
           else if (m ++ btick :: ['\n']).drop
              ((m ++ btick :: ['\n']).takeWhile (fun d => d ≠ btick)).length = [] then none
           else some ((m ++ btick :: ['\n']).takeWhile (fun d => d ≠ btick)))
        else none) from rfl]
  rw [if_pos rfl]
  have hcap : (m ++ btick :: ['\n']).takeWhile (fun d => d ≠ btick) = m :=
    takeWhile_append_stop (fun x hx => by
      simp only [ne_eq, decide_eq_true_eq]
      intro he
      exact htick (he ▸ hx)) (by simp) _
  rw [hcap, if_neg hne, List.drop_left, if_neg (by simp)]

/-- The Message-ID sequence of one canonical entry block. -/
theorem filterMap_entryLines {en : DocEntry} (h : GoodEntry en) :
    (entryLines en).filterMap midOfLine = [en.mid] := by
  obtain ⟨hsub, hfn, hmid, hnotes⟩ := h
  unfold entryLines
  rw [List.cons_append, List.cons_append, List.cons_append, List.cons_append,
    List.cons_append, List.nil_append]
  rw [List.filterMap_cons, midOfLine_blank]
  rw [List.filterMap_cons, show midOfLine (("- **".toList) ++ en.subject ++ ("**".toList) ++ ['\n'])
    = none from midOfLine_nonspace_head (by decide)
      ((" **".toList) ++ en.subject ++ ("**".toList) ++ ['\n'])]
  rw [List.filterMap_cons, midOfLine_file en.filename]
  rw [List.filterMap_cons, midOfLine_mid hmid]
  rw [List.filterMap_cons, midOfLine_notesHdr]
  rw [List.filterMap_eq_nil_iff.mpr (fun l hl => (hnotes l hl).2.2.2.2.2.1)]

theorem filterMap_mid_entries {es : List DocEntry} (hes : ∀ en ∈ es, GoodEntry en) :
    ((es.map entryLines).flatten).filterMap midOfLine = es.map (fun en => en.mid) := by
  induction es with
  | nil => rfl
  | cons en rest ih =>
    rw [List.map_cons, List.flatten_cons, List.filterMap_append,
      filterMap_entryLines (hes en (List.mem_cons_self en rest)),
      ih (fun x hx => hes x (List.mem_cons_of_mem en hx)), List.map_cons]
    rfl

/-- The `finditer` sequence over a canonical document is exactly its entry
ids, in order. -/
theorem midSeq_docOf {e : Int} {c : List Char} {es : List DocEntry}
    (hc : CleanText c) (hes : ∀ en ∈ es, GoodEntry en) :
    midSeq (docOf e c es) = es.map (fun en => en.mid) := by
  unfold midSeq
  rw [splitlines_docOf hc hes]
  unfold docLines afterFmLines bodyLines
  rw [List.filterMap_cons_none (show midOfLine (("---".toList) ++ ['\n']) = none from by decide)]
  rw [List.filterMap_cons_none (show midOfLine (("edition: ".toList) ++ intToCL e ++ ['\n'])
    = none from midOfLine_nonspace_head (by decide) (("dition: ".toList) ++ intToCL e ++ ['\n']))]
  rw [List.filterMap_cons_none (show midOfLine (("created: ".toList) ++ c ++ ['\n'])
    = none from midOfLine_nonspace_head (by decide) (("reated: ".toList) ++ c ++ ['\n']))]
  rw [List.filterMap_cons_none (show midOfLine (("---".toList) ++ ['\n']) = none from by decide)]
  rw [List.filterMap_cons_none midOfLine_blank]
  rw [List.filterMap_cons_none (show midOfLine (("# Git Rev News Edition ".toList) ++ intToCL e
      ++ (" - Raw Materials".toList) ++ ['\n'])
    = none from midOfLine_nonspace_head (by decide)
      ((" Git Rev News Edition ".toList) ++ intToCL e ++ (" - Raw Materials".toList) ++ ['\n']))]
  rw [List.filterMap_cons_none midOfLine_blank]
  rw [List.filterMap_append]
  rw [List.filterMap_cons_none (show midOfLine (("## Selected Threads".toList) ++ ['\n'])
    = none from by decide)]
  rw [filterMap_mid_entries hes,
    show List.filterMap midOfLine [['\n']] = [] from by decide]
  rw [List.append_nil]

/-! ### Parsing the front matter of a canonical document -/

theorem take_append_of_length {l₁ l₂ : List Char} {n : Nat} (h : n = l₁.length) :
    (l₁ ++ l₂).take n = l₁ := by
  subst h
  exact List.take_left l₁ l₂

/-- The front matter extracted from a canonical document. -/
theorem parseFrontMatter_docOf {e : Int} {c : List Char} {es : List DocEntry}
    (hc : CleanText c) :
    parseFrontMatter (docOf e c es)
      = some ((("edition: ".toList) ++ intToCL e) ++ ('\n' :: (("created: ".toList) ++ c))) := by
  unfold parseFrontMatter
  rw [docOf_decomp]
  rw [if_pos (by
    rw [show ("---\nedition: ".toList) ++ (intToCL e ++ (("\ncreated: ".toList) ++ (c ++
          (("\n---\n".toList) ++ (afterFmLines e es).flatten))))
        = ("---\n".toList) ++ (("edition: ".toList) ++ (intToCL e ++ (("\ncreated: ".toList) ++ (c ++
          (("\n---\n".toList) ++ (afterFmLines e es).flatten))))) from rfl]
    exact isPrefixOf_append_self _ _)]
  rw [show ((("---\nedition: ".toList) ++ (intToCL e ++ (("\ncreated: ".toList) ++ (c ++
        (("\n---\n".toList) ++ (afterFmLines e es).flatten))))).drop 4)
      = ("edition: ".toList) ++ (intToCL e ++ (("\ncreated: ".toList) ++ (c ++
        (("\n---\n".toList) ++ (afterFmLines e es).flatten)))) from rfl]
  rw [findSub_close_fm (intToCL e) c ((afterFmLines e es).flatten)
    (intToCL_no_nl e) (fun ch hch he => absurd ((hc ch hch).1) (he ▸ (by decide)))]
  rw [Option.map_some']
  congr 1
  rw [show ("edition: ".toList) ++ (intToCL e ++ (("\ncreated: ".toList) ++ (c ++
        (("\n---\n".toList) ++ (afterFmLines e es).flatten))))
      = ((("edition: ".toList) ++ intToCL e) ++ ('\n' :: (("created: ".toList) ++ c)))
        ++ (("\n---\n".toList) ++ (afterFmLines e es).flatten) from by
    rw [show ("\ncreated: ".toList) = '\n' :: ("created: ".toList) from by decide]
    simp [List.append_assoc]]
  apply take_append_of_length
  simp only [List.length_append, List.length_cons]
  have h9 : ("edition: ".toList).length = 9 := by decide
  have h8 : ("created: ".toList).length = 9 := by decide
  omega

theorem splitOnNl_fm (D c : List Char) (hD : '\n' ∉ D) (hc : '\n' ∉ c) :
    splitOnNl ((("edition: ".toList) ++ D) ++ ('\n' :: (("created: ".toList) ++ c)))
      = [("edition: ".toList) ++ D, ("created: ".toList) ++ c] := by
  unfold splitOnNl
  rw [splitOnNlAux_line (by
    intro hm
    rcases List.mem_append.mp hm with hm1 | hm1
    · exact absurd hm1 (by decide)
    · exact hD hm1) _ []]
  rw [splitOnNlAux_last (by
    intro hm
    rcases List.mem_append.mp hm with hm1 | hm1
    · exact absurd hm1 (by decide)
    · exact hc hm1) []]
  simp

theorem parseEditionAt_edition (n : Nat) :
    parseEditionAt (("edition: ".toList) ++ natToCL n) = some (n : Int) := by
  unfold parseEditionAt
  rw [if_pos (by
    rw [show ("edition: ".toList) ++ natToCL n
        = ("edition:".toList) ++ (' ' :: natToCL n) from rfl]
    exact isPrefixOf_append_self _ _)]
  rw [show ((("edition: ".toList) ++ natToCL n).drop 8) = ' ' :: natToCL n from rfl]
  rw [show (' ' :: natToCL n).dropWhile isPySpace = (natToCL n).dropWhile isPySpace from
    List.dropWhile_cons_of_pos (by decide)]
  rw [dropWhile_all_eq_self (fun x hx => isDigit_not_pySpace (natToCL_digits n x hx))]
  dsimp only
  rw [takeWhile_all_eq_self (natToCL_digits n)]
  rw [if_neg (natToCL_ne_nil n)]
  rw [natOfDigits_natToCL]

theorem parseCreatedAt_edition_none (D : List Char) :
    parseCreatedAt (("edition: ".toList) ++ D) = none := by
  unfold parseCreatedAt
  rw [if_neg (by
    rw [show (("created:".toList).isPrefixOf (("edition: ".toList) ++ D))
        = (('c' :: ("reated:".toList)).isPrefixOf
            ('e' :: (("dition: ".toList) ++ D))) from rfl]
    rw [isPrefixOf_cons_false (by decide)]
    simp)]

theorem parseCreatedAt_created {c : List Char} (hcc : CleanCreated c) :
    parseCreatedAt (("created: ".toList) ++ c) = some c := by
  obtain ⟨hne, hclean, hsp⟩ := hcc
  have hnosp : ∀ x ∈ c, isPySpace x = false := fun x hx =>
    cleanChar_not_pySpace (hclean x hx).1 (fun he => hsp (he ▸ hx))
  unfold parseCreatedAt
  rw [if_pos (by
    rw [show ("created: ".toList) ++ c = ("created:".toList) ++ (' ' :: c) from rfl]
    exact isPrefixOf_append_self _ _)]
  rw [show ((("created: ".toList) ++ c).drop 8) = ' ' :: c from rfl]
  rw [show (' ' :: c).dropWhile isPySpace = c.dropWhile isPySpace from
    List.dropWhile_cons_of_pos (by decide)]
  rw [dropWhile_all_eq_self hnosp]
  dsimp only
  rw [takeWhile_all_eq_self (fun x hx => by simp [hnosp x hx])]
  rw [if_neg hne]

/-- `load_index` on a canonical document. -/
theorem load_index_docOf (n : Nat) (c : List Char) (es : List DocEntry)
    (hcc : CleanCreated c) (hes : ∀ en ∈ es, GoodEntry en) :
    load_index (some (docOf (n : Int) c es)) =
      { edition := some (n : Int), created := some c,
        done_mids := (es.map (fun en => en.mid)).foldl setInsert [] } := by
  unfold load_index
  dsimp only
  rw [parseFrontMatter_docOf hcc.2.1, midSeq_docOf hcc.2.1 hes]
  rw [Option.some_bind, Option.some_bind]
  rw [intToCL_natCast]
  rw [splitOnNl_fm (natToCL n) c
    (fun hm => absurd (natToCL_digits n '\n' hm) (by decide))
    hcc.2.1.ne_nl]
  simp only [firstSomeOn]
  rw [parseEditionAt_edition n, parseCreatedAt_edition_none,
    parseCreatedAt_created ⟨hcc.1, hcc.2.1, hcc.2.2⟩]

/-! ### Evaluating `save_index` on a canonical document -/

theorem isPrefixOf_append_of_isPrefixOf {l x : List Char} (h : l.isPrefixOf x = true)
    (y : List Char) : l.isPrefixOf (x ++ y) = true := by
  induction l generalizing x with
  | nil => cases x <;> cases y <;> rfl
  | cons a as ih =>
    cases x with
    | nil => simp [List.isPrefixOf] at h
    | cons b bs =>
      simp only [List.isPrefixOf, Bool.and_eq_true, beq_iff_eq] at h
      simp only [List.cons_append, List.isPrefixOf, Bool.and_eq_true, beq_iff_eq]
      exact ⟨h.1, ih h.2⟩

theorem drop_append_of_length {l₁ l₂ : List Char} {n : Nat} (h : n = l₁.length) :
    (l₁ ++ l₂).drop n = l₂ := by
  subst h
  exact List.drop_left l₁ l₂

theorem afterFmLines_isLine {e : Int} {es : List DocEntry}
    (hes : ∀ en ∈ es, GoodEntry en) : ∀ l ∈ afterFmLines e es, IsLine l := by
  intro l hl
  have : l ∈ docLines e [] es := by
    unfold docLines
    exact List.mem_cons_of_mem _ (List.mem_cons_of_mem _ (List.mem_cons_of_mem _
      (List.mem_cons_of_mem _ hl)))
  exact docLines_isLine (by intro ch hch; cases hch) hes l this

theorem bodyLines_kept {es : List DocEntry} (hes : ∀ en ∈ es, GoodEntry en) :
    ∀ l ∈ bodyLines es, (!(("# Git Rev News".toList).isPrefixOf l)) = true := by
  intro l hl
  unfold bodyLines at hl
  rcases List.mem_append.mp hl with hl1 | hl1
  · rcases List.mem_cons.mp hl1 with rfl | hl2
    · decide
    · rw [List.mem_flatten] at hl2
      obtain ⟨lines, hlines, hmem⟩ := hl2
      rw [List.mem_map] at hlines
      obtain ⟨en, hen, rfl⟩ := hlines
      obtain ⟨hsub, hfn, hmid, hnotes⟩ := hes en hen
      unfold entryLines at hmem
      rcases List.mem_cons.mp hmem with rfl | hmem
      · decide
      rcases List.mem_cons.mp hmem with rfl | hmem
      · rw [show (("# Git Rev News".toList).isPrefixOf
            (("- **".toList) ++ en.subject ++ ("**".toList) ++ ['\n']))
          = (('#' :: (" Git Rev News".toList)).isPrefixOf
            ('-' :: ((" **".toList) ++ en.subject ++ ("**".toList) ++ ['\n']))) from rfl]
        rw [isPrefixOf_cons_false (by decide)]
        rfl
      rcases List.mem_cons.mp hmem with rfl | hmem
      · rw [show (("# Git Rev News".toList).isPrefixOf
            (("  - File: ".toList) ++ btick :: (en.filename ++ btick :: ['\n'])))
          = (('#' :: (" Git Rev News".toList)).isPrefixOf
            (' ' :: ((" - File: ".toList) ++ btick :: (en.filename ++ btick :: ['\n'])))) from rfl]
        rw [isPrefixOf_cons_false (by decide)]
        rfl
      rcases List.mem_cons.mp hmem with rfl | hmem
      · rw [show (("# Git Rev News".toList).isPrefixOf
            (("  - Message-ID: ".toList) ++ btick :: (en.mid ++ btick :: ['\n'])))
          = (('#' :: (" Git Rev News".toList)).isPrefixOf
            (' ' :: ((" - Message-ID: ".toList) ++ btick :: (en.mid ++ btick :: ['\n'])))) from rfl]
        rw [isPrefixOf_cons_false (by decide)]
        rfl
      rcases List.mem_cons.mp hmem with rfl | hmem
      · decide
      · rw [(hnotes l hmem).2.2.2.2.1]
        rfl
  · rw [List.mem_singleton] at hl1
    subst hl1
    decide

/-- The filtered body `save_index` recovers from a canonical document. -/
theorem existingBody_docOf {e : Int} {c : List Char} {es : List DocEntry}
    (hc : CleanText c) (hes : ∀ en ∈ es, GoodEntry en) :
    existingBodyOf (some (docOf e c es))
      = '\n' :: ('\n' :: (bodyLines es).flatten) := by
  unfold existingBodyOf
  dsimp only
  have hA : findSub ("---\n".toList) (docOf e c es) = some 0 := by
    rw [docOf_decomp]
    apply findSub_of_prefix
    rw [show ("---\nedition: ".toList) ++ (intToCL e ++ (("\ncreated: ".toList) ++ (c ++
          (("\n---\n".toList) ++ (afterFmLines e es).flatten))))
        = ("---\n".toList) ++ (("edition: ".toList) ++ (intToCL e ++ (("\ncreated: ".toList) ++ (c ++
          (("\n---\n".toList) ++ (afterFmLines e es).flatten))))) from rfl]
    exact isPrefixOf_append_self _ _
  have hcnl : ∀ ch ∈ c, ch ≠ '\n' :=
    fun ch hch he => absurd ((hc ch hch).1) (he ▸ (by decide))
  have hB : findSub ("\n---\n".toList) ((docOf e c es).drop 0)
      = some (((((((0 + c.length) + 9) + 1) + (intToCL e).length) + 9) + 1) + 3) := by
    rw [List.drop_zero, docOf_decomp]
    exact findSub_close_doc (intToCL e) c _ (intToCL_no_nl e) hcnl
  have hC : (docOf e c es).drop
        (0 + ((((((((0 + c.length) + 9) + 1) + (intToCL e).length) + 9) + 1) + 3)) + 5)
      = (afterFmLines e es).flatten := by
    rw [docOf_decomp]
    rw [show ("---\nedition: ".toList) ++ (intToCL e ++ (("\ncreated: ".toList) ++ (c ++
          (("\n---\n".toList) ++ (afterFmLines e es).flatten))))
        = (("---\nedition: ".toList) ++ intToCL e ++ ("\ncreated: ".toList) ++ c
            ++ ("\n---\n".toList)) ++ (afterFmLines e es).flatten from by
      simp [List.append_assoc]]
    apply drop_append_of_length
    simp only [List.length_append]
    have d1 : ("---\nedition: ".toList).length = 13 := by decide
    have d2 : ("\ncreated: ".toList).length = 10 := by decide
    have d3 : ("\n---\n".toList).length = 5 := by decide
    omega
  rw [hA]
  dsimp only
  rw [hB]
  dsimp only
  rw [hC]
  rw [splitlinesKeep_flatten (afterFmLines_isLine hes)]
  unfold afterFmLines
  rw [List.filter_cons_of_pos (by decide)]
  rw [List.filter_cons_of_neg (by
    have hp : ("# Git Rev News".toList).isPrefixOf (("# Git Rev News Edition ".toList)
        ++ intToCL e ++ (" - Raw Materials".toList) ++ ['\n']) = true :=
      isPrefixOf_append_of_isPrefixOf (isPrefixOf_append_of_isPrefixOf
        (isPrefixOf_append_of_isPrefixOf (by decide) _) _) _
    rw [hp]
    decide)]
  rw [List.filter_cons_of_pos (by decide)]
  rw [List.filter_eq_self.mpr (bodyLines_kept hes)]
  rfl

theorem flatten_map_flatten (f : DocEntry → List (List Char)) (l : List DocEntry) :
    ((l.map f).flatten).flatten = (l.map (fun x => (f x).flatten)).flatten := by
  induction l with
  | nil => rfl
  | cons a as ih => simp [List.flatten_append, ih]

/-- The body as one string: header line, then the rendered entries, then a
blank line. -/
theorem bodyFlat_eq (es : List DocEntry) :
    (bodyLines es).flatten
      = ("## Selected Threads\n".toList) ++ ((es.map renderEntry).flatten ++ ['\n']) := by
  unfold bodyLines renderEntry
  rw [show (es.map fun en => (entryLines en).flatten) = es.map ((fun x => (entryLines x).flatten))
    from rfl]
  rw [← flatten_map_flatten]
  simp [List.flatten_append, List.append_assoc]

/-- The five fixed lines of an entry block, as one string. -/
def entryFixed (en : DocEntry) : List Char :=
  '\n' :: ((("- **".toList) ++ en.subject ++ ("**".toList) ++ ['\n'])
    ++ ((("  - File: ".toList) ++ btick :: (en.filename ++ btick :: ['\n']))
    ++ ((("  - Message-ID: ".toList) ++ btick :: (en.mid ++ btick :: ['\n']))
    ++ ((("  - Notes:".toList) ++ ['\n'])))))

theorem renderEntry_fixed (en : DocEntry) :
    renderEntry en = entryFixed en ++ en.notes.flatten := by
  unfold renderEntry entryLines entryFixed
  simp [List.flatten_append, List.append_assoc]

/-- Every well-formed entry block ends in a non-blank character followed by
exactly one newline. -/
theorem entry_ends {en : DocEntry} (h : GoodEntry en) :
    ∃ u z, renderEntry en = u ++ [z, '\n'] ∧ isPySpace z = false := by
  rcases eq_or_ne en.notes [] with hn | hne
  · refine ⟨'\n' :: ((("- **".toList) ++ en.subject ++ ("**".toList) ++ ['\n'])
      ++ ((("  - File: ".toList) ++ btick :: (en.filename ++ btick :: ['\n']))
      ++ ((("  - Message-ID: ".toList) ++ btick :: (en.mid ++ btick :: ['\n']))
      ++ ("  - Notes".toList)))), ':', ?_, by decide⟩
    have hsplit : ("  - Notes:".toList) = ("  - Notes".toList) ++ [':'] := by decide
    rw [renderEntry_fixed, hn]
    unfold entryFixed
    rw [hsplit]
    simp [List.append_assoc]
  · have hlmem : en.notes.getLast hne ∈ en.notes := List.getLast_mem hne
    obtain ⟨h1, h2, _, h4, _, _⟩ := h.2.2.2 _ hlmem
    have hlnil : en.notes.getLast hne ≠ [] := by
      intro hz
      rw [hz] at h1
      cases h1
    have hlast_nl : (en.notes.getLast hne).getLast hlnil = '\n' :=
      Option.some.inj ((List.getLast?_eq_getLast _ hlnil).symm.trans h1)
    have hldec : en.notes.getLast hne
        = (en.notes.getLast hne).dropLast ++ ['\n'] := by
      conv_lhs => rw [← List.dropLast_concat_getLast hlnil]
      rw [hlast_nl]
    have hz : isPySpace ((en.notes.getLast hne).dropLast.getLast h2) = false := by
      rw [List.getLastD_eq_getLast?, List.getLast?_eq_getLast _ h2, Option.getD_some] at h4
      exact h4
    have hadec : (en.notes.getLast hne).dropLast
        = (en.notes.getLast hne).dropLast.dropLast
          ++ [(en.notes.getLast hne).dropLast.getLast h2] :=
      (List.dropLast_concat_getLast h2).symm
    have hndec : en.notes = en.notes.dropLast ++ [en.notes.getLast hne] :=
      (List.dropLast_concat_getLast hne).symm
    refine ⟨entryFixed en ++ (en.notes.dropLast.flatten
        ++ (en.notes.getLast hne).dropLast.dropLast),
      (en.notes.getLast hne).dropLast.getLast h2, ?_, hz⟩
    rw [renderEntry_fixed]
    conv_lhs => rw [hndec]
    rw [List.flatten_append]
    conv_lhs => rw [hldec]
    conv_lhs => rw [hadec]
    simp [List.append_assoc]

/-- The body string of a well-formed document ends in a non-blank character
followed by exactly two newlines (and starts with `#`). -/
theorem bodyFlat_decomp {es : List DocEntry} (hes : ∀ en ∈ es, GoodEntry en) :
    ∃ m z, (bodyLines es).flatten = ('#' :: (m ++ [z])) ++ ['\n', '\n']
      ∧ isPySpace z = false := by
  rcases eq_or_ne es [] with rfl | hne
  · exact ⟨"# Selected Thread".toList, 's', by decide, by decide⟩
  · have hmem : es.getLast hne ∈ es := List.getLast_mem hne
    obtain ⟨u, z, hu, hz⟩ := entry_ends (hes _ hmem)
    have hedec : es = es.dropLast ++ [es.getLast hne] :=
      (List.dropLast_concat_getLast hne).symm
    refine ⟨("# Selected Threads\n".toList)
        ++ ((es.dropLast.map renderEntry).flatten ++ u), z, ?_, hz⟩
    rw [bodyFlat_eq]
    conv_lhs => rw [hedec]
    rw [List.map_append, List.flatten_append]
    have hsel : ("## Selected Threads\n".toList)
        = '#' :: ("# Selected Threads\n".toList) := by decide
    rw [hsel]
    simp [hu, List.append_assoc]

/-- How `pyStrip` acts on the extracted body of a well-formed document. -/
theorem strip_body {es : List DocEntry} (hes : ∀ en ∈ es, GoodEntry en) :
    ∃ w, pyStrip ('\n' :: ('\n' :: (bodyLines es).flatten)) = w
      ∧ w ≠ [] ∧ (bodyLines es).flatten = (w ++ ['\n']) ++ ['\n'] := by
  obtain ⟨m, z, hm, hz⟩ := bodyFlat_decomp hes
  refine ⟨'#' :: (m ++ [z]), ?_, List.cons_ne_nil _ _, ?_⟩
  · rw [hm, pyStrip_drop_leading, pyStrip_drop_leading]
    exact pyStrip_sandwich (by decide) hz (by decide)
  · rw [hm]
    simp [List.append_assoc]

/-- A canonical document, split exactly as `save_index` assembles its
output: front matter, title header, body. -/
theorem docOf_fm_header (e : Int) (c : List Char) (es : List DocEntry) :
    docOf e c es
      = ((("---\nedition: ".toList) ++ intToCL e ++ ("\ncreated: ".toList) ++ c
            ++ ("\n---\n".toList))
          ++ ((("\n# Git Rev News Edition ".toList) ++ intToCL e
              ++ (" - Raw Materials\n\n".toList))
            ++ ((bodyLines es).flatten))) := by
  have s1 : ("---\nedition: ".toList)
      = (("---".toList) ++ ['\n']) ++ ("edition: ".toList) := by decide
  have s2 : ("\ncreated: ".toList) = ['\n'] ++ ("created: ".toList) := by decide
  have s3 : ("\n---\n".toList) = ['\n'] ++ (("---".toList) ++ ['\n']) := by decide
  have s4 : ("\n# Git Rev News Edition ".toList)
      = ['\n'] ++ ("# Git Rev News Edition ".toList) := by decide
  have s5 : (" - Raw Materials\n\n".toList)
      = ((" - Raw Materials".toList) ++ ['\n']) ++ ['\n'] := by decide
  rw [s1, s2, s3, s4, s5]
  unfold docOf docLines afterFmLines
  simp [List.append_assoc]

theorem mem_foldl_setInsert (x : List Char) (l : List (List Char))
    (init : List (List Char)) :
    x ∈ l.foldl setInsert init ↔ x ∈ init ∨ x ∈ l := by
  induction l generalizing init with
  | nil => simp
  | cons a as ih =>
    rw [List.foldl_cons, ih]
    unfold setInsert
    by_cases ha : a ∈ init
    · rw [if_pos ha]
      constructor
      · rintro (h | h)
        · exact Or.inl h
        · exact Or.inr (List.mem_cons_of_mem _ h)
      · rintro (h | h)
        · exact Or.inl h
        · rcases List.mem_cons.mp h with rfl | h
          · exact Or.inl ha
          · exact Or.inr h
    · rw [if_neg ha]
      constructor
      · rintro (h | h)
        · rcases List.mem_append.mp h with h | h
          · exact Or.inl h
          · exact Or.inr (List.mem_cons.mpr (Or.inl (List.mem_singleton.mp h)))
        · exact Or.inr (List.mem_cons_of_mem _ h)
      · rintro (h | h)
        · exact Or.inl (List.mem_append.mpr (Or.inl h))
        · rcases List.mem_cons.mp h with rfl | h
          · exact Or.inl (List.mem_append.mpr (Or.inr (List.mem_singleton.mpr rfl)))
          · exact Or.inr h

/-- The central save step: rewriting a canonical document appends exactly
the entries of the threads whose root id is not yet recorded, and changes
nothing else. -/
theorem save_index_docOf (today c : List Char) (n : Nat) (es : List DocEntry)
    (ts : List ThreadRec) (hcc : CleanCreated c) (hes : ∀ en ∈ es, GoodEntry en) :
    save_index today (some (docOf (n : Int) c es)) (n : Int) ts
        (some (load_index (some (docOf (n : Int) c es))))
      = docOf (n : Int) c (es ++ ((ts.filter (fun t =>
          !(((es.map (fun en => en.mid)).foldl setInsert []).contains t.root_mid))).map
            threadEntry)) := by
  rw [load_index_docOf n c es hcc hes]
  unfold save_index
  dsimp only
  rw [if_neg hcc.1]
  rw [existingBody_docOf hcc.2.1 hes]
  obtain ⟨w, hwEq, hwNe, hwDecomp⟩ := strip_body hes
  rw [hwEq, if_neg hwNe]
  rw [docOf_fm_header]
  have hv : ("## Selected Threads\n".toList) ++ ((es.map renderEntry).flatten)
      = w ++ ['\n'] := by
    have h1 := (bodyFlat_eq es).symm.trans hwDecomp
    rw [← List.append_assoc] at h1
    exact List.append_cancel_right h1
  rw [bodyFlat_eq, List.map_append, List.flatten_append]
  have hmapFor : ((ts.filter (fun t =>
        !(((es.map (fun en => en.mid)).foldl setInsert []).contains t.root_mid))).map
          entryFor).flatten
      = (((ts.filter (fun t =>
        !(((es.map (fun en => en.mid)).foldl setInsert []).contains t.root_mid))).map
          threadEntry).map renderEntry).flatten := by
    rw [List.map_map]
    congr 1
    apply List.map_congr_left
    intro t _
    exact entryFor_eq t
  rw [hmapFor]
  rw [← hv]
  simp [List.append_assoc]

/-! ### The entries `save_index` writes are well formed -/

theorem collapseAux_mem {b : Bool} {l : List Char} :
    ∀ ch ∈ collapseAux b l,
      ch = '-' ∨ (ch ∈ l ∧ isPySpace ch = false ∧ ch ≠ '-') := by
  induction l generalizing b with
  | nil => intro ch h; cases h
  | cons c cs ih =>
    intro ch hch
    unfold collapseAux at hch
    by_cases hc : (isPySpace c || c = '-') = true
    · rw [if_pos hc] at hch
      cases b with
      | true =>
        rcases ih ch hch with h | ⟨h1, h2⟩
        · exact Or.inl h
        · exact Or.inr ⟨List.mem_cons_of_mem _ h1, h2⟩
      | false =>
        rcases List.mem_cons.mp hch with rfl | h2
        · exact Or.inl rfl
        · rcases ih ch h2 with h | ⟨h1, h3⟩
          · exact Or.inl h
          · exact Or.inr ⟨List.mem_cons_of_mem _ h1, h3⟩
    · rw [if_neg hc] at hch
      have hc1 : isPySpace c = false := by
        cases h : isPySpace c
        · rfl
        · exact absurd (Bool.or_eq_true_iff.mpr (Or.inl h)) hc
      have hc2 : c ≠ '-' := by
        intro he
        exact hc (Bool.or_eq_true_iff.mpr (Or.inr (decide_eq_true he)))
      have hc' : isPySpace c = false ∧ c ≠ '-' := ⟨hc1, hc2⟩
      rcases List.mem_cons.mp hch with rfl | h2
      · exact Or.inr ⟨List.mem_cons_self _ _, hc'⟩
      · rcases ih ch h2 with h | ⟨h1, h3⟩
        · exact Or.inl h
        · exact Or.inr ⟨List.mem_cons_of_mem _ h1, h3⟩

/-- Every character of a sanitized filename is a word character or a
hyphen. -/
theorem sanitize_mem {s : List Char} :
    ∀ ch ∈ sanitize_filename s, isWordChar ch = true ∨ ch = '-' := by
  intro ch hch
  unfold sanitize_filename at hch
  dsimp only at hch
  have h1 := List.take_subset _ _ hch
  rw [List.mem_reverse] at h1
  have h2 := (List.dropWhile_sublist _).subset h1
  rw [List.mem_reverse] at h2
  have h3 := (List.dropWhile_sublist _).subset h2
  rcases collapseAux_mem ch h3 with h | ⟨h4, h5, h6⟩
  · exact Or.inr h
  · rcases List.mem_filter.mp h4 with ⟨_, hp⟩
    rcases Bool.or_eq_true_iff.mp hp with hp | hp
    · rcases Bool.or_eq_true_iff.mp hp with hp | hp
      · exact Or.inl hp
      · rw [hp] at h5; cases h5
    · exact absurd (by
        have := of_decide_eq_true hp
        exact this) h6

theorem wordChar_printable {c : Char} (h : isWordChar c = true) :
    32 ≤ c.toNat ∧ c.toNat < 127 := by
  unfold isWordChar Char.isAlphanum Char.isAlpha Char.isDigit Char.isUpper Char.isLower at h
  simp only [Bool.or_eq_true, decide_eq_true_eq, Bool.and_eq_true] at h
  have hle : ∀ a b : Char, a ≤ b → a.toNat ≤ b.toNat := fun _ _ hab => hab
  rcases h with ((⟨h1, h2⟩ | ⟨h1, h2⟩) | ⟨h1, h2⟩) | h1
  · exact ⟨le_trans (show (32:Nat) ≤ Char.toNat 'A' from by decide) (hle _ _ h1),
      lt_of_le_of_lt (hle _ _ h2) (show Char.toNat 'Z' < 127 from by decide)⟩
  · exact ⟨le_trans (show (32:Nat) ≤ Char.toNat 'a' from by decide) (hle _ _ h1),
      lt_of_le_of_lt (hle _ _ h2) (show Char.toNat 'z' < 127 from by decide)⟩
  · exact ⟨le_trans (show (32:Nat) ≤ Char.toNat '0' from by decide) (hle _ _ h1),
      lt_of_le_of_lt (hle _ _ h2) (show Char.toNat '9' < 127 from by decide)⟩
  · subst h1; decide

theorem filenameOf_clean {t : ThreadRec} (h : CleanThread t) :
    CleanText (filenameOf t) := by
  intro ch hch
  unfold filenameOf at hch
  rcases List.mem_append.mp hch with hm | hm
  · rcases List.mem_append.mp hm with hm | hm
    · rcases List.mem_append.mp hm with hm | hm
      · rcases sanitize_mem ch hm with hw | rfl
        · exact wordChar_printable hw
        · decide
      · rw [List.mem_singleton.mp hm]; decide
    · exact h.2.2 ch (List.take_subset _ _ hm)
  · fin_cases hm <;> decide

/-- The entry `save_index` writes for a clean thread is well formed. -/
theorem threadEntry_good {t : ThreadRec} (h : CleanThread t) :
    GoodEntry (threadEntry t) :=
  ⟨h.1, filenameOf_clean h, h.2.1, fun _ hl => absurd hl (List.not_mem_nil _)⟩

theorem goodEntries_append {es : List DocEntry} {ts : List ThreadRec}
    (hes : ∀ en ∈ es, GoodEntry en) (hts : ∀ t ∈ ts, CleanThread t)
    (p : ThreadRec → Bool) :
    ∀ en ∈ es ++ ((ts.filter p).map threadEntry), GoodEntry en := by
  intro en hen
  rcases List.mem_append.mp hen with h | h
  · exact hes en h
  · obtain ⟨t, ht, rfl⟩ := List.mem_map.mp h
    exact threadEntry_good (hts t (List.mem_filter.mp ht).1)

/-! ## C8: rewriting an existing document preserves it and only appends -/

set_option maxRecDepth 100000 in
/-- C8 (counterexample to the unrestricted claim): `save_index` drops every
body line starting with `# Git Rev News` — the filter that removes the
title header also removes an operator note line with that prefix, so the
note is destroyed on rewrite (here with no new threads at all), against
"preserved verbatim". -/
theorem save_index_frame_counterexample :
    containsSub ("# Git Rev News was here".toList) exDocGRN = true
      ∧ containsSub ("# Git Rev News was here".toList)
          (save_index ("2024-02-02".toList) (some exDocGRN) ((127 : Nat) : Int) []
            (some (load_index (some exDocGRN)))) = false :=
  ⟨by decide, by decide⟩

/-- C8 (amended): for every canonical resume document whose operator note
lines are benign — printable, backtick-free, ending in a non-blank
character, and not starting with `# Git Rev News` (lines with that prefix
are deleted by the title filter, and trailing blank lines are eaten by
`strip()`) — rewriting it through `save_index`, with the index loaded from
that document as the existing index, reproduces the document byte for byte
with the same edition, the same creation date, and every existing entry
block (subject, filename, Message-ID and note lines) verbatim in its
original position; the only change is that the entries of the
not-yet-recorded threads are appended at the end, in order. -/
theorem save_index_frame (today c : List Char) (n : Nat) (es : List DocEntry)
    (ts : List ThreadRec) (hcc : CleanCreated c) (hes : ∀ en ∈ es, GoodEntry en) :
    save_index today (some (docOf (n : Int) c es)) (n : Int) ts
        (some (load_index (some (docOf (n : Int) c es))))
      = docOf (n : Int) c (es ++ ((ts.filter (fun t =>
          !(((es.map (fun en => en.mid)).foldl setInsert []).contains t.root_mid))).map
            threadEntry)) :=
  save_index_docOf today c n es ts hcc hes

/-- Witness for C8 at a concrete document (one existing entry with an
operator note) and one new thread. -/
theorem save_index_frame_witness :
    CleanCreated ("2024-02-01".toList)
      ∧ (∀ en ∈ [exEntry], GoodEntry en)
      ∧ save_index ("2024-02-02".toList)
          (some (docOf ((127 : Nat) : Int) ("2024-02-01".toList) [exEntry]))
          ((127 : Nat) : Int) [exT]
          (some (load_index (some (docOf ((127 : Nat) : Int) ("2024-02-01".toList) [exEntry]))))
        = docOf ((127 : Nat) : Int) ("2024-02-01".toList)
            ([exEntry] ++ (([exT].filter (fun t =>
              !((([exEntry].map (fun en => en.mid)).foldl setInsert []).contains
                t.root_mid))).map threadEntry)) :=
  ⟨by decide, by decide,
    save_index_frame ("2024-02-02".toList) ("2024-02-01".toList) 127 [exEntry] [exT]
      (by decide) (by decide)⟩

/-! ## C3: save/load round trip -/

set_option maxRecDepth 100000 in
/-- C3 (counterexample to the unrestricted claim): the round trip loses a
root Message-ID containing a backtick — the entry is written as
`  - Message-ID: ` a`b ` ` and the `([^`]+)` capture re-reads only the
pre-backtick prefix `a`, so the saved id is not in the loaded done set. -/
theorem save_load_roundtrip_counterexample :
    exTick.root_mid ∉ (load_index (some exSave1)).done_mids := by
  decide

/-- C3 (amended): for threads whose root ids are non-empty, printable and
backtick-free, and documents whose entries are likewise well formed,
loading a document just written by `save_index` reproduces the done set —
it holds exactly the previously recorded message ids plus the root ids of
the newly appended threads — and the document's entry sequence is the old
entries in their original order followed by the new threads in the order
given. -/
theorem save_load_roundtrip (today c : List Char) (n : Nat) (es : List DocEntry)
    (ts : List ThreadRec) (hcc : CleanCreated c) (hes : ∀ en ∈ es, GoodEntry en)
    (hts : ∀ t ∈ ts, CleanThread t) :
    (∀ x, x ∈ (load_index (some (save_index today (some (docOf (n : Int) c es)) (n : Int) ts
          (some (load_index (some (docOf (n : Int) c es))))))).done_mids
        ↔ x ∈ es.map (fun en => en.mid)
          ∨ x ∈ (ts.filter (fun t => !(((es.map (fun en => en.mid)).foldl setInsert
              []).contains t.root_mid))).map (fun t => t.root_mid))
      ∧ midSeq (save_index today (some (docOf (n : Int) c es)) (n : Int) ts
            (some (load_index (some (docOf (n : Int) c es)))))
          = es.map (fun en => en.mid)
            ++ (ts.filter (fun t => !(((es.map (fun en => en.mid)).foldl setInsert
                []).contains t.root_mid))).map (fun t => t.root_mid) := by
  have hstep := save_index_docOf today c n es ts hcc hes
  have hes1 := goodEntries_append hes hts (fun t =>
    !(((es.map (fun en => en.mid)).foldl setInsert []).contains t.root_mid))
  rw [hstep]
  constructor
  · intro x
    rw [load_index_docOf n c _ hcc hes1]
    dsimp only
    rw [mem_foldl_setInsert, List.map_append, List.map_map]
    constructor
    · rintro (h | h)
      · exact absurd h (List.not_mem_nil x)
      · exact List.mem_append.mp h
    · intro h
      exact Or.inr (List.mem_append.mpr h)
  · rw [midSeq_docOf hcc.2.1 hes1, List.map_append, List.map_map]
    rfl

/-- Witness for C3 at the same concrete document and thread. -/
theorem save_load_roundtrip_witness :
    CleanCreated ("2024-02-01".toList)
      ∧ (∀ en ∈ [exEntry], GoodEntry en)
      ∧ (∀ t ∈ [exT], CleanThread t)
      ∧ ((∀ x, x ∈ (load_index (some (save_index ("2024-02-02".toList)
            (some (docOf ((127 : Nat) : Int) ("2024-02-01".toList) [exEntry]))
            ((127 : Nat) : Int) [exT]
            (some (load_index (some (docOf ((127 : Nat) : Int) ("2024-02-01".toList)
              [exEntry]))))))).done_mids
          ↔ x ∈ [exEntry].map (fun en => en.mid)
            ∨ x ∈ ([exT].filter (fun t => !((([exEntry].map (fun en => en.mid)).foldl setInsert
                []).contains t.root_mid))).map (fun t => t.root_mid))
        ∧ midSeq (save_index ("2024-02-02".toList)
              (some (docOf ((127 : Nat) : Int) ("2024-02-01".toList) [exEntry]))
              ((127 : Nat) : Int) [exT]
              (some (load_index (some (docOf ((127 : Nat) : Int) ("2024-02-01".toList)
                [exEntry])))))
            = [exEntry].map (fun en => en.mid)
              ++ ([exT].filter (fun t => !((([exEntry].map (fun en => en.mid)).foldl setInsert
                  []).contains t.root_mid))).map (fun t => t.root_mid)) :=
  ⟨by decide, by decide, by decide,
    save_load_roundtrip ("2024-02-02".toList) ("2024-02-01".toList) 127 [exEntry] [exT]
      (by decide) (by decide) (by decide)⟩

/-! ## C2: saving twice with the same thread set is idempotent -/

set_option maxRecDepth 100000 in
/-- C2 (counterexample to the unrestricted claim): saving the backtick-id
thread a second time appends it again — the first save recorded only the
pre-backtick prefix `a` of its root id, so the id is not found in the done
set and the second document differs from the first. -/
theorem save_index_idempotent_counterexample :
    save_index ("2024-02-03".toList) (some exSave1) ((127 : Nat) : Int) [exTick]
        (some (load_index (some exSave1)))
      ≠ exSave1 := by
  decide

/-- C2 (amended): for threads whose root ids are non-empty, printable and
backtick-free, calling `save_index` twice with the same thread list — each
time with the index loaded from the current document as the existing
index — produces a document identical to calling it once: on the second
call every thread's root id is already in the done set, so the filter
removes all of them and nothing is appended. -/
theorem save_index_idempotent (today today' c : List Char) (n : Nat)
    (es : List DocEntry) (ts : List ThreadRec)
    (hcc : CleanCreated c) (hes : ∀ en ∈ es, GoodEntry en)
    (hts : ∀ t ∈ ts, CleanThread t) :
    save_index today'
        (some (save_index today (some (docOf (n : Int) c es)) (n : Int) ts
          (some (load_index (some (docOf (n : Int) c es))))))
        ((n : Int)) ts
        (some (load_index (some (save_index today (some (docOf (n : Int) c es)) (n : Int) ts
          (some (load_index (some (docOf (n : Int) c es))))))))
      = save_index today (some (docOf (n : Int) c es)) (n : Int) ts
          (some (load_index (some (docOf (n : Int) c es)))) := by
  have hstep1 := save_index_docOf today c n es ts hcc hes
  have hes1 := goodEntries_append hes hts (fun t =>
    !(((es.map (fun en => en.mid)).foldl setInsert []).contains t.root_mid))
  have hstep2 := save_index_docOf today' c n
    (es ++ ((ts.filter (fun t =>
      !(((es.map (fun en => en.mid)).foldl setInsert []).contains t.root_mid))).map
        threadEntry)) ts hcc hes1
  rw [hstep1, hstep2]
  have hfil : ts.filter (fun t =>
      !((((es ++ ((ts.filter (fun t =>
            !(((es.map (fun en => en.mid)).foldl setInsert []).contains t.root_mid))).map
              threadEntry)).map (fun en => en.mid)).foldl setInsert []).contains t.root_mid))
      = [] := by
    apply List.filter_eq_nil_iff.mpr
    intro t ht
    have hmem : t.root_mid ∈ (es ++ ((ts.filter (fun t =>
        !(((es.map (fun en => en.mid)).foldl setInsert []).contains t.root_mid))).map
          threadEntry)).map (fun en => en.mid) := by
      rw [List.map_append]
      by_cases hm : t.root_mid ∈ es.map (fun en => en.mid)
      · exact List.mem_append.mpr (Or.inl hm)
      · apply List.mem_append.mpr
        apply Or.inr
        rw [List.map_map]
        apply List.mem_map.mpr
        refine ⟨t, ?_, rfl⟩
        apply List.mem_filter.mpr
        refine ⟨ht, ?_⟩
        have hcon : ((es.map (fun en => en.mid)).foldl setInsert []).contains t.root_mid
            = false := by
          cases hcase : ((es.map (fun en => en.mid)).foldl setInsert []).contains t.root_mid
          · rfl
          · exact absurd (((mem_foldl_setInsert _ _ _).mp
              (List.elem_iff.mp hcase)).resolve_left (List.not_mem_nil _)) hm
        rw [hcon]
        rfl
    have hcon : (((es ++ ((ts.filter (fun t =>
        !(((es.map (fun en => en.mid)).foldl setInsert []).contains t.root_mid))).map
          threadEntry)).map (fun en => en.mid)).foldl setInsert []).contains t.root_mid
        = true :=
      List.elem_iff.mpr ((mem_foldl_setInsert _ _ _).mpr (Or.inr hmem))
    rw [hcon]
    decide
  rw [hfil]
  rw [show (([] : List ThreadRec).map threadEntry) = ([] : List DocEntry) from rfl,
    List.append_nil]

/-- Witness for C2 at the same concrete document and thread. -/
theorem save_index_idempotent_witness :
    CleanCreated ("2024-02-01".toList)
      ∧ (∀ en ∈ [exEntry], GoodEntry en)
      ∧ (∀ t ∈ [exT], CleanThread t)
      ∧ save_index ("2024-02-03".toList)
          (some (save_index ("2024-02-02".toList)
            (some (docOf ((127 : Nat) : Int) ("2024-02-01".toList) [exEntry]))
            ((127 : Nat) : Int) [exT]
            (some (load_index (some (docOf ((127 : Nat) : Int) ("2024-02-01".toList)
              [exEntry]))))))
          (((127 : Nat) : Int)) [exT]
          (some (load_index (some (save_index ("2024-02-02".toList)
            (some (docOf ((127 : Nat) : Int) ("2024-02-01".toList) [exEntry]))
            ((127 : Nat) : Int) [exT]
            (some (load_index (some (docOf ((127 : Nat) : Int) ("2024-02-01".toList)
              [exEntry]))))))))
        = save_index ("2024-02-02".toList)
            (some (docOf ((127 : Nat) : Int) ("2024-02-01".toList) [exEntry]))
            ((127 : Nat) : Int) [exT]
            (some (load_index (some (docOf ((127 : Nat) : Int) ("2024-02-01".toList)
              [exEntry])))) :=
  ⟨by decide, by decide, by decide,
    save_index_idempotent ("2024-02-02".toList) ("2024-02-03".toList) ("2024-02-01".toList)
      127 [exEntry] [exT] (by decide) (by decide) (by decide)⟩

end SearchML
